import Mathlib

/-!
# Route congestion prediction (`src/Map.js`) and the `/predict-route` stub

A shallow embedding of `handlePredict` of `src/src/Map.js` and of the
`POST /predict-route` handler of `src/tempserver/index.js`.

Conventions of the embedding.

* A number is an IEEE binary64 value: `NaN`, an infinity, or a sign and a
  rational magnitude.  The speeds of a flow record are the decimals written in
  the response body; reading one, adding two numbers and dividing the sum by
  the count round to the nearest double, ties to even, with overflow to an
  infinity and underflow to a zero.
* The quotient of the two printed averages in the classification, and its
  comparison with 0.8 and 0.5, are taken exactly.
* A lookup that throws, and a lookup whose body has no `flowSegmentData`, are
  both the outcome `none`.
-/

namespace Traffic

/-! ## JavaScript values used by `handlePredict` -/

/-- A JavaScript number: `NaN`, an infinity, or a finite value kept as sign and
magnitude, so that `+0` and `-0` stay apart.  The magnitude is never negative. -/
inductive JSNum where
  | nan
  | inf (neg : Bool)
  | fin (neg : Bool) (mag : ℚ)
  deriving DecidableEq

/-- The operator `/` on numbers, before any rounding: `0/0` is `NaN`, a nonzero
value over a zero is an infinity whose sign is the product of the signs, and the
quotient of two finite values is exact. -/
def JSNum.div : JSNum → JSNum → JSNum
  | .nan, _ => .nan
  | _, .nan => .nan
  | .inf _, .inf _ => .nan
  | .inf a, .fin b _ => .inf (xor a b)
  | .fin a _, .inf b => .fin (xor a b) 0
  | .fin a x, .fin b y =>
    if y = 0 then (if x = 0 then .nan else .inf (xor a b))
    else .fin (xor a b) (x / y)

/-- The comparison `x > c` against a positive constant `c`: false for `NaN`. -/
def JSNum.gt (x : JSNum) (c : ℚ) : Bool :=
  match x with
  | .nan => false
  | .inf neg => !neg
  | .fin neg mag => !neg && decide (c < mag)

/-! ### Rounding to a double -/

/-- The power `2 ^ e` for an integer exponent. -/
def pow2 (e : ℤ) : ℚ :=
  if 0 ≤ e then ((2 ^ e.toNat : ℕ) : ℚ) else 1 / ((2 ^ (-e).toNat : ℕ) : ℚ)

/-- The number of halvings that bring `n` below 2, at most `fuel` of them. -/
def halvings : ℕ → ℕ → ℕ
  | 0, _ => 0
  | fuel + 1, n => if 2 ≤ n then halvings fuel (n / 2) + 1 else 0

/-- The exponent of the leading bit of a natural number: `⌊log₂ n⌋`, and 0 for 0. -/
def bitLog (n : ℕ) : ℕ :=
  halvings n n

/-- The exponent of the leading bit of a positive rational: `⌊log₂ a⌋`. -/
def floorLog2 (a : ℚ) : ℤ :=
  let e : ℤ := (bitLog a.num.natAbs : ℤ) - (bitLog a.den : ℤ)
  if a < pow2 e then e - 1 else e

/-- The integer nearest to a non-negative rational, the even one of two that are
equally near. -/
def roundHalfEven (q : ℚ) : ℕ :=
  let f := ⌊q⌋₊
  if q - f < 1 / 2 then f
  else if 1 / 2 < q - f then f + 1
  else if f % 2 = 0 then f else f + 1

/-- The double nearest to the magnitude `a ≥ 0`, with the sign `neg`: 53
significant bits, no exponent below that of the subnormal numbers, ties to the
even significand, and an infinity from `2 ^ 1024` on. -/
def roundToDouble (neg : Bool) (a : ℚ) : JSNum :=
  if a = 0 then .fin neg 0
  else
    let g : ℤ := max (floorLog2 a - 52) (-1074)
    let mag : ℚ := (roundHalfEven (a / pow2 g) : ℚ) * pow2 g
    if pow2 1024 ≤ mag then .inf neg else .fin neg mag

/-- The number that a decimal of a JSON body is read as. -/
def JSNum.ofRat (q : ℚ) : JSNum :=
  roundToDouble (decide (q < 0)) |q|

/-- The rational with the given sign and magnitude. -/
def signed (neg : Bool) (mag : ℚ) : ℚ :=
  if neg then -mag else mag

/-- The operator `+` on numbers.  An exact sum of zero is `+0`, unless both
terms are `-0`. -/
def JSNum.add : JSNum → JSNum → JSNum
  | .nan, _ => .nan
  | _, .nan => .nan
  | .inf a, .inf b => if a = b then .inf a else .nan
  | .inf a, .fin _ _ => .inf a
  | .fin _ _, .inf b => .inf b
  | .fin a x, .fin b y =>
    if signed a x + signed b y = 0 then .fin (a && b) 0
    else JSNum.ofRat (signed a x + signed b y)

/-- The rounding of an exact result to a double. -/
def JSNum.round : JSNum → JSNum
  | .nan => .nan
  | .inf neg => .inf neg
  | .fin neg mag => roundToDouble neg mag

/-! ### The texts of a speed -/

/-- The string value held by `currentSpeed` and `freeFlowSpeed`: the text
`"N/A"`, or an output of `toFixed(1)`.  That output is a sign, the digits before
the point and one digit after it (`tenths` is the number read without the
point); from `10 ^ 21` on it is the number in exponent notation; and it is
`"Infinity"`, `"-Infinity"` or `"NaN"` for a number that is not finite. -/
inductive SpeedText where
  | na
  | fixed (neg : Bool) (tenths : Nat)
  | exponent (neg : Bool) (mag : ℚ)
  | infinity (neg : Bool)
  | nan
  deriving DecidableEq, Repr

/-- The method `Number.prototype.toFixed(1)`: a number that is not finite is
printed by name; the sign is taken off a negative number; a magnitude from
`10 ^ 21` on is printed in exponent notation; otherwise the nearest multiple of
one tenth is chosen, the larger one of two equally near. -/
def toFixed1 : JSNum → SpeedText
  | .nan => .nan
  | .inf neg => .infinity neg
  | .fin neg mag =>
    if 10 ^ 21 ≤ mag then .exponent neg mag
    else .fixed (neg && decide (mag ≠ 0)) ⌊mag * 10 + 1 / 2⌋₊

/-- The number a string is coerced to by an arithmetic operator: `"N/A"` is
`NaN`, `"-0.0"` is `-0`. -/
def SpeedText.toNumber : SpeedText → JSNum
  | .na => .nan
  | .fixed neg tenths => .fin neg ((tenths : ℚ) / 10)
  | .exponent neg mag => .fin neg mag
  | .infinity neg => .inf neg
  | .nan => .nan

/-- The decimal a speed text denotes, when it denotes one. -/
def SpeedText.value : SpeedText → Option ℚ
  | .na => none
  | .fixed neg tenths => some ((if neg then -1 else 1) * ((tenths : ℚ) / 10))
  | .exponent neg mag => some ((if neg then -1 else 1) * mag)
  | .infinity _ => none
  | .nan => none

/-- The shortest decimal that is read back as the double `mag ≥ 10 ^ 21`: its
digits `s` and the number `n` of digits of the integer it stands for, the
decimal being `s · 10 ^ (n - k)` for the `k` digits of `s`.  Of two decimals of
the same length the nearer to `mag` is taken. -/
def shortestDecimal (mag : ℚ) : ℕ × ℕ :=
  let n := (Nat.toDigits 10 ⌊mag⌋₊).length
  let found := (List.range 17).filterMap fun i =>
    let k := i + 1
    let unit : ℚ := 10 ^ (n - k)
    let lo : ℕ := ⌊mag / unit⌋₊
    let ok : List ℕ := [lo, lo + 1].filter fun (c : ℕ) =>
      decide (roundToDouble false ((c : ℚ) * unit) = .fin false mag)
    match ok with
    | [] => none
    | [c] => some (c, k)
    | c :: d :: _ =>
      if mag - (c : ℚ) * unit < (d : ℚ) * unit - mag then some (c, k)
      else if (d : ℚ) * unit - mag < mag - (c : ℚ) * unit then some (d, k)
      else if c % 2 = 0 then some (c, k) else some (d, k)
  match found.head? with
  | none => (⌊mag⌋₊, n)
  | some (c, k) => if c = 10 ^ k then (1, n + 1) else (c, n)

/-- The exponent notation of a double `mag ≥ 10 ^ 21`: the first digit, a
point and the other digits when there are any, then `e+` and the exponent. -/
def exponentText (mag : ℚ) : String :=
  let sn := shortestDecimal mag
  let digits := toString sn.1
  (if digits.length = 1 then digits else digits.take 1 ++ "." ++ digits.drop 1)
    ++ "e+" ++ toString (sn.2 - 1)

/-- The characters of a speed text, as they are shown in the result card. -/
def SpeedText.text : SpeedText → String
  | .na => "N/A"
  | .fixed neg tenths =>
    (if neg then "-" else "") ++ toString (tenths / 10) ++ "." ++ toString (tenths % 10)
  | .exponent neg mag => (if neg then "-" else "") ++ exponentText mag
  | .infinity neg => if neg then "-Infinity" else "Infinity"
  | .nan => "NaN"

/-- The test `s !== "N/A"` on a speed text. -/
def SpeedText.isNotNA : SpeedText → Bool
  | .na => false
  | _ => true

/-- The test `s !== 0` on a speed text.  Strict inequality does not coerce: a
string and a number are of different types, so they are never strictly equal. -/
def SpeedText.strictNeZero : SpeedText → Bool
  | _ => true

/-! ## The sampler (`Map.js`, line 91) -/

/-- The test `i % m === 0` for an array index `i` and a non-negative integer
`m`.  `i % 0` is `NaN`, and `NaN === 0` is false. -/
def remIsZero (i m : Nat) : Bool :=
  if m = 0 then false else i % m == 0

/-- The method `Array.prototype.filter` with a callback that reads the index too. -/
def filterWithIndex {α : Type} (f : α → Nat → Bool) (xs : List α) : List α :=
  (xs.enum.filter (fun ip => f ip.2 ip.1)).map Prod.snd

/-- The samples of a path:
`r.overview_path.filter((_, i) => i % Math.floor(r.overview_path.length / 5) === 0)`. -/
def samples {α : Type} (overview_path : List α) : List α :=
  filterWithIndex (fun _ i => remIsZero i (overview_path.length / 5)) overview_path

/-! ## The aggregation loop and the classification (`Map.js`, lines 92-121) -/

/-- The `flowSegmentData` of a flow response: the two speeds as the decimals
written in the body. -/
structure FlowSegmentData where
  currentSpeed : ℚ
  freeFlowSpeed : ℚ
  deriving DecidableEq

/-- The three accumulators of the loop over the samples. -/
structure FlowTotals where
  totalCurrentSpeed : JSNum
  totalFreeFlow : JSNum
  validPoints : Nat

/-- One turn of the loop `for (const p of samples)`: a flow record is added to
the totals, a failed or empty lookup leaves them as they are. -/
def flowStep (acc : FlowTotals) : Option FlowSegmentData → FlowTotals
  | none => acc
  | some d =>
    { totalCurrentSpeed := acc.totalCurrentSpeed.add (JSNum.ofRat d.currentSpeed)
      totalFreeFlow := acc.totalFreeFlow.add (JSNum.ofRat d.freeFlowSpeed)
      validPoints := acc.validPoints + 1 }

/-- The whole loop, from the three zeros. -/
def flowTotals (outcomes : List (Option FlowSegmentData)) : FlowTotals :=
  outcomes.foldl flowStep ⟨.fin false 0, .fin false 0, 0⟩

/-- Lines 112-113: `validPoints ? (total / validPoints).toFixed(1) : "N/A"`.  The
count is a whole number, exact as a double; the quotient is rounded to a
double. -/
def averageText (total : JSNum) (validPoints : Nat) : SpeedText :=
  if validPoints = 0 then .na
  else toFixed1 (total.div (.fin false validPoints)).round

/-- Lines 115-121: the label starts as `"Unknown"` and is replaced when both
tests of the guard pass. -/
def congestionOf (currentSpeed freeFlowSpeed : SpeedText) : String :=
  if currentSpeed.isNotNA && freeFlowSpeed.strictNeZero then
    let ratio := currentSpeed.toNumber.div freeFlowSpeed.toNumber
    if ratio.gt (8 / 10) then "Low"
    else if ratio.gt (5 / 10) then "Medium"
    else "High"
  else "Unknown"

/-- The three speed fields of a route result. -/
structure SpeedReport where
  currentSpeed : SpeedText
  freeFlowSpeed : SpeedText
  congestion : String

/-- Lines 92-121 for the lookup outcomes of one route, in sample order. -/
def speedReport (outcomes : List (Option FlowSegmentData)) : SpeedReport :=
  let t := flowTotals outcomes
  let currentSpeed := averageText t.totalCurrentSpeed t.validPoints
  let freeFlowSpeed := averageText t.totalFreeFlow t.validPoints
  { currentSpeed := currentSpeed
    freeFlowSpeed := freeFlowSpeed
    congestion := congestionOf currentSpeed freeFlowSpeed }

/-! ## One route of the directions result (`Map.js`, lines 89-148) -/

/-- A point of a path: the values of `p.lat()` and `p.lng()`. -/
structure LatLng where
  lat : ℚ
  lng : ℚ
  deriving DecidableEq

/-- The fields of a route of the directions result that `handlePredict` reads.
`distance` and `duration` are the texts of the first leg. -/
structure DirectionsRoute where
  summary : String
  distance : String
  duration : String
  overview_path : List LatLng
  overview_polyline : String
  deriving DecidableEq

/-- What a weather response carries when its `weather` array is not empty: the
description of the first entry and the text of `main.temp`. -/
structure WeatherData where
  description : String
  temp : String

/-- The answers of the two providers during one prediction.  `none` is a
request that threw or a body without the field that is read. -/
structure Lookups where
  flow : LatLng → Option FlowSegmentData
  weather : LatLng → Option WeatherData

/-- The object returned for one route (lines 138-147). -/
structure RouteResult where
  summary : String
  distance : String
  duration : String
  currentSpeed : SpeedText
  freeFlowSpeed : SpeedText
  congestion : String
  weather : String
  polyline : String

/-- Lines 123-136: the weather text for the point in the middle of the path.
On a path without points the midpoint is `undefined`, the call of `lat` on it
throws inside the `try`, and the text stays `"N/A"`. -/
def weatherOf (env : Lookups) (overview_path : List LatLng) : String :=
  match overview_path[overview_path.length / 2]? with
  | none => "N/A"
  | some midpoint =>
    match env.weather midpoint with
    | none => "N/A"
    | some w => w.description ++ ", " ++ w.temp ++ "Â°C"

/-- The callback of `result.routes.map` (lines 89-148). -/
def processRoute (env : Lookups) (r : DirectionsRoute) : RouteResult :=
  let report := speedReport ((samples r.overview_path).map env.flow)
  { summary := r.summary
    distance := r.distance
    duration := r.duration
    currentSpeed := report.currentSpeed
    freeFlowSpeed := report.freeFlowSpeed
    congestion := report.congestion
    weather := weatherOf env r.overview_path
    polyline := r.overview_polyline }

/-! ## Colours and renderers (`Map.js`, lines 4-10 and 153-170) -/

/-- The object `congestionColors`, as its list of keys and values. -/
def congestionColors : List (String × String) :=
  [("Low", "green"), ("Medium", "yellow"), ("High", "red"), ("Unknown", "gray")]

/-- The stroke colour `congestionColors[congestion] || "#888"`: the fallback is taken when the key
is absent or its value is the empty string. -/
def strokeColorOf (congestion : String) : String :=
  match congestionColors.lookup congestion with
  | none => "#888"
  | some c => if c = "" then "#888" else c

/-- A `DirectionsRenderer` object: `map` is true while the renderer is attached
to the map instance and false once `setMap(null)` was called on it. -/
structure DirectionsRenderer where
  map : Bool
  route : DirectionsRoute
  strokeColor : String

/-- Lines 154-168: one renderer for each route, coloured after the result at
the same position.  `none` is the `TypeError` of reading `congestion` off an
`undefined` entry of `updatedRoutes`. -/
def newRenderers (routes : List DirectionsRoute) (updatedRoutes : List RouteResult) :
    Option (List DirectionsRenderer) :=
  routes.enum.mapM fun ir =>
    (updatedRoutes[ir.1]?).map fun routeData =>
      { map := true, route := ir.2, strokeColor := strokeColorOf routeData.congestion }

/-! ## The component state and `handlePredict` (`Map.js`, lines 13-20 and 70-185) -/

/-- The state of the component that `handlePredict` reads or writes.  A renderer
is referred to by its position in the heap of renderer objects.  The map
instance is taken to exist: `initMap` creates it as soon as the Maps script is
loaded, and no directions request can be made before that. -/
structure MapState where
  origin : String
  destination : String
  routes : List RouteResult
  incidents : List String
  directionsRenderer : List Nat

/-- What happens to the map, in the order in which it happens. -/
inductive MapEvent where
  | detached (ref : Nat)
  | drawn (ref : Nat)
  deriving DecidableEq

/-- The component state, every renderer object constructed so far, and the
record of the map events. -/
structure Page where
  state : MapState
  heap : List DirectionsRenderer
  log : List MapEvent

/-- The answers of the outside world to one prediction: the routes of the
directions result (`none` when the status is not `"OK"`), the two lookups, and
the incidents request (`none` when it throws, `some none` when the body has no
`incidents`). -/
structure Responses where
  directions : Option (List DirectionsRoute)
  lookups : Lookups
  incidents : Option (Option (List String))

/-- The call `dr.setMap(null)` on the renderer at position `ref`. -/
def setMapNull (heap : List DirectionsRenderer) (ref : Nat) : List DirectionsRenderer :=
  match heap[ref]? with
  | none => heap
  | some dr => heap.set ref { dr with map := false }

/-- The positions of the renderers that are attached to the map. -/
def attached (heap : List DirectionsRenderer) : List Nat :=
  (List.range heap.length).filter fun i => (heap[i]?.map (·.map)) == some true

/-- Lines 176-184: the incidents of the fixed bounding box. -/
def fetchIncidents (resp : Responses) (s : MapState) : MapState :=
  match resp.incidents with
  | none => s
  | some found => { s with incidents := found.getD [] }

/-- The callback of `directionsService.route` (lines 86-172), run on a page
whose previous renderers were already detached. -/
def onDirections (resp : Responses) (pg : Page) : Page :=
  match resp.directions with
  | none => pg
  | some routes =>
    let updatedRoutes := routes.map (processRoute resp.lookups)
    let s1 := { pg.state with routes := updatedRoutes }
    match newRenderers routes updatedRoutes with
    | none => { pg with state := s1 }
    | some rs =>
      let refs := (List.range rs.length).map (· + pg.heap.length)
      { state := { s1 with directionsRenderer := refs }
        heap := pg.heap ++ rs
        log := pg.log ++ refs.map MapEvent.drawn }

/-- The function `handlePredict`, with its requests answered by `resp` and run to
completion before anything else happens on the page. -/
def handlePredict (resp : Responses) (pg : Page) : Page :=
  if pg.state.origin = "" ∨ pg.state.destination = "" then pg
  else
    let cleared : Page :=
      { state := { pg.state with directionsRenderer := [] }
        heap := pg.state.directionsRenderer.foldl setMapNull pg.heap
        log := pg.log ++ pg.state.directionsRenderer.map MapEvent.detached }
    let shown := onDirections resp cleared
    { shown with state := fetchIncidents resp shown.state }

/-- Predictions made one after the other, each one complete before the next. -/
def runPredictions (resps : List Responses) (pg : Page) : Page :=
  resps.foldl (fun p resp => handlePredict resp p) pg

/-! ## The handler of `POST /predict-route` (`tempserver/index.js`, lines 20-115) -/

/-- A JSON value. -/
inductive JSON where
  | null
  | bool (b : Bool)
  | num (q : ℚ)
  | str (s : String)
  | arr (items : List JSON)
  | obj (fields : List (String × JSON))

/-- The value of `req.body` after the body parsers of the server: an object
(JSON or URL-encoded, `{}` without a body), an array, or a text. -/
inductive Body where
  | object (fields : List (String × JSON))
  | array (items : List JSON)
  | text (s : String)

/-- Reading a property off the body, `none` for `undefined`. -/
def Body.prop (b : Body) (key : String) : Option JSON :=
  match b with
  | .object fields => fields.lookup key
  | .array _ => none
  | .text _ => none

/-- Truthiness of a JSON value. -/
def JSON.truthy : JSON → Bool
  | .null => false
  | .bool b => b
  | .num q => decide (q ≠ 0)
  | .str s => decide (s ≠ "")
  | .arr _ => true
  | .obj _ => true

/-- The test `!v` on a value that may be `undefined`. -/
def isFalsy : Option JSON → Bool
  | none => true
  | some v => !v.truthy

/-- Reading `lat` or `lng` off a truthy value: only an object has them. -/
def JSON.prop (v : JSON) (key : String) : Option JSON :=
  match v with
  | .obj fields => fields.lookup key
  | _ => none

/-- The environment of the server: the API key of `backend_constants`, and what
the weather request gives for a latitude and a longitude, already reduced to
the object built on lines 30-36 (`none` when the request or the reading of its
body throws). -/
structure Backend where
  OPENWEATHER_API_KEY : String
  weatherRequest : Option JSON → Option JSON → Option JSON

/-- The function `getWeatherData` (lines 20-44). -/
def getWeatherData (env : Backend) (latitude longitude : Option JSON) : Option JSON :=
  if env.OPENWEATHER_API_KEY = "" ∨ env.OPENWEATHER_API_KEY = "YOUR_OPENWEATHER_API_KEY" then none
  else env.weatherRequest latitude longitude

/-- A response: the status and the JSON body sent with `res.json`. -/
structure Response where
  status : Nat
  body : JSON

/-- A property whose value is `undefined` is left out of the JSON text. -/
def field (key : String) : Option JSON → List (String × JSON)
  | none => []
  | some v => [(key, v)]

/-- The handler of `POST /predict-route` (lines 63-115). -/
def predictRoute (env : Backend) (body : Body) : Response :=
  let from_ := body.prop "from"
  let to_ := body.prop "to"
  if isFalsy from_ || isFalsy to_ then
    { status := 400, body := .obj [("error", .str "Missing \x27from\x27 or \x27to\x27 coordinates")] }
  else
    let weatherAtOrigin :=
      getWeatherData env (from_.bind (·.prop "lat")) (from_.bind (·.prop "lng"))
    { status := 200
      body := .obj ([("message", JSON.str "Prediction request received, weather fetched!")]
        ++ field "receivedOrigin" from_ ++ field "receivedDestination" to_
        ++ [("weatherData", weatherAtOrigin.getD .null)]) }

/-! ## Statements of the specification, in its own words -/

/-- The indices `0, stride, 2·stride, …` that stay below `n`. -/
def strideIndices (n stride : Nat) : List Nat :=
  ((List.range n).map (· * stride)).filter (· < n)

/-- The flow records among the outcomes, in order. -/
def presentRecords (outcomes : List (Option FlowSegmentData)) : List FlowSegmentData :=
  outcomes.filterMap id

/-- The sum of the decimals as the loop computes it: from `+0`, each decimal is
read as a double and added to the total, from left to right. -/
def doubleSum (xs : List ℚ) : JSNum :=
  xs.foldl (fun total x => total.add (JSNum.ofRat x)) (.fin false 0)

/-- The average of the decimals as the code computes it: the double sum divided
by the count, rounded to a double. -/
def doubleAverage (xs : List ℚ) : JSNum :=
  ((doubleSum xs).div (.fin false xs.length)).round

/-- The number whose value is exactly the rational `s`. -/
def JSNum.ofExact (s : ℚ) : JSNum :=
  .fin (decide (s < 0)) |s|

/-- The value `v` is `x` rounded to one decimal: a whole number of tenths, nearest to `x`. -/
def IsRoundedToTenth (x v : ℚ) : Prop :=
  (∃ n : ℤ, v = n / 10) ∧ |x - v| ≤ 1 / 20

/-- A JSON value is an object with the given field. -/
def JSON.hasField (v : JSON) (key : String) : Bool :=
  match v with
  | .obj fields => (fields.lookup key).isSome
  | _ => false

/-- The page keeps track of its overlays: every reference held in the state is
a renderer of the heap, and every renderer attached to the map is held in the
state. -/
def Consistent (pg : Page) : Prop :=
  (∀ ref ∈ pg.state.directionsRenderer, ref < pg.heap.length) ∧
    ∀ i ∈ attached pg.heap, i ∈ pg.state.directionsRenderer

instance (pg : Page) : Decidable (Consistent pg) := by
  unfold Consistent
  infer_instance

/-! ## Shared lemmas -/

theorem foldl_flowStep (outcomes : List (Option FlowSegmentData)) (acc : FlowTotals) :
    outcomes.foldl flowStep acc =
      { totalCurrentSpeed :=
          ((presentRecords outcomes).map (·.currentSpeed)).foldl
            (fun total x => total.add (JSNum.ofRat x)) acc.totalCurrentSpeed
        totalFreeFlow :=
          ((presentRecords outcomes).map (·.freeFlowSpeed)).foldl
            (fun total x => total.add (JSNum.ofRat x)) acc.totalFreeFlow
        validPoints := acc.validPoints + (presentRecords outcomes).length } := by
  induction outcomes generalizing acc with
  | nil => simp [presentRecords]
  | cons o os ih =>
    cases o with
    | none => simpa [flowStep, presentRecords] using ih acc
    | some d =>
      rw [List.foldl_cons, ih]
      simp [flowStep, presentRecords]
      omega

theorem flowTotals_eq (outcomes : List (Option FlowSegmentData)) :
    flowTotals outcomes =
      { totalCurrentSpeed := doubleSum ((presentRecords outcomes).map (·.currentSpeed))
        totalFreeFlow := doubleSum ((presentRecords outcomes).map (·.freeFlowSpeed))
        validPoints := (presentRecords outcomes).length } := by
  simp [flowTotals, foldl_flowStep, doubleSum]

theorem pow2_pos (e : ℤ) : 0 < pow2 e := by
  unfold pow2
  split <;> positivity

theorem roundToDouble_fin_nonneg (neg : Bool) (a : ℚ) (neg1 : Bool) (m : ℚ)
    (h : roundToDouble neg a = .fin neg1 m) : 0 ≤ m := by
  unfold roundToDouble at h
  split at h
  · cases h
    exact le_refl _
  · dsimp only at h
    split at h
    · cases h
    · cases h
      exact mul_nonneg (Nat.cast_nonneg _) (pow2_pos _).le

theorem doubleAverage_fin_nonneg (xs : List ℚ) (neg : Bool) (m : ℚ)
    (h : doubleAverage xs = .fin neg m) : 0 ≤ m := by
  unfold doubleAverage at h
  generalize (doubleSum xs).div (.fin false xs.length) = r at h
  cases r with
  | nan => cases h
  | inf n => cases h
  | fin n x => exact roundToDouble_fin_nonneg n x neg m h

theorem toFixed1_rounds (neg : Bool) (mag : ℚ) (h0 : 0 ≤ mag) (hlt : mag < 10 ^ 21) :
    ∃ v, (toFixed1 (.fin neg mag)).value = some v ∧ IsRoundedToTenth (signed neg mag) v := by
  have hp : (0 : ℚ) ≤ mag * 10 + 1 / 2 := by positivity
  have h1 : ((⌊mag * 10 + 1 / 2⌋₊ : ℕ) : ℚ) ≤ mag * 10 + 1 / 2 := Nat.floor_le hp
  have h2 : mag * 10 + 1 / 2 < ((⌊mag * 10 + 1 / 2⌋₊ : ℕ) : ℚ) + 1 := Nat.lt_floor_add_one _
  simp only [toFixed1, if_neg (not_le.mpr hlt)]
  generalize ⌊mag * 10 + 1 / 2⌋₊ = n at h1 h2 ⊢
  cases neg with
  | false =>
    refine ⟨1 * ((n : ℚ) / 10), by simp [SpeedText.value], ⟨(n : ℤ), by push_cast; ring⟩, ?_⟩
    simp only [signed, Bool.false_eq_true, if_false]
    rw [abs_le]
    constructor <;> linarith
  | true =>
    by_cases hz : mag = 0
    · subst hz
      have hn : n = 0 := by
        have : (n : ℚ) < 1 := by linarith
        exact Nat.lt_one_iff.mp (by exact_mod_cast this)
      subst hn
      refine ⟨1 * (((0 : ℕ) : ℚ) / 10), by simp [SpeedText.value], ⟨0, by simp⟩, ?_⟩
      simp [signed]
    · refine ⟨-1 * ((n : ℚ) / 10), by simp [SpeedText.value, hz],
        ⟨-(n : ℤ), by push_cast; ring⟩, ?_⟩
      simp only [signed, if_true]
      rw [abs_le]
      constructor <;> linarith

theorem toFixed1_isNotNA (x : JSNum) : (toFixed1 x).isNotNA = true := by
  cases x with
  | nan => rfl
  | inf n => rfl
  | fin n m =>
    by_cases hm : 10 ^ 21 ≤ m <;> simp [toFixed1, hm, SpeedText.isNotNA]

theorem toFixed1_exponent_nonneg (x : JSNum) (neg : Bool) (mag : ℚ)
    (h : toFixed1 x = .exponent neg mag) : 0 ≤ mag := by
  cases x with
  | nan => cases h
  | inf n => cases h
  | fin n m =>
    by_cases hm : 10 ^ 21 ≤ m
    · simp only [toFixed1, if_pos hm, SpeedText.exponent.injEq] at h
      rw [← h.2]
      exact le_trans (by positivity) hm
    · simp [toFixed1, hm] at h

theorem toNumber_of_value (cs : SpeedText) (c : ℚ)
    (hw : ∀ n m, cs = .exponent n m → 0 ≤ m) (hc : cs.value = some c) :
    ∃ neg mag, cs.toNumber = .fin neg mag ∧ 0 ≤ mag ∧
      c = (if neg then -1 else 1) * mag ∧ cs.isNotNA = true := by
  cases cs with
  | na => simp [SpeedText.value] at hc
  | infinity n => simp [SpeedText.value] at hc
  | nan => simp [SpeedText.value] at hc
  | fixed n t =>
    simp only [SpeedText.value, Option.some.injEq] at hc
    exact ⟨n, (t : ℚ) / 10, rfl, by positivity, hc.symm, rfl⟩
  | exponent n m =>
    simp only [SpeedText.value, Option.some.injEq] at hc
    exact ⟨n, m, rfl, hw n m rfl, hc.symm, rfl⟩

theorem congestionOf_of_value (cs fs : SpeedText) (c f : ℚ)
    (hwc : ∀ n m, cs = .exponent n m → 0 ≤ m) (hwf : ∀ n m, fs = .exponent n m → 0 ≤ m)
    (hc : cs.value = some c) (hf : fs.value = some f) (hpos : 0 < f) :
    congestionOf cs fs =
      if 8 / 10 < c / f then "Low" else if 5 / 10 < c / f then "Medium" else "High" := by
  obtain ⟨nc, mc, hcn, hmc, hcv, hcna⟩ := toNumber_of_value cs c hwc hc
  obtain ⟨nf, mf, hfn, hmf, hfv, _⟩ := toNumber_of_value fs f hwf hf
  have hstrict : fs.strictNeZero = true := by cases fs <;> rfl
  cases nf with
  | true =>
    simp only [if_true] at hfv
    linarith
  | false =>
    simp only [Bool.false_eq_true, if_false, one_mul] at hfv
    subst hfv
    have hne : f ≠ 0 := ne_of_gt hpos
    cases nc with
    | false =>
      simp only [Bool.false_eq_true, if_false, one_mul] at hcv
      subst hcv
      simp [congestionOf, hcna, hstrict, hcn, hfn, JSNum.div, JSNum.gt, hne]
    | true =>
      simp only [if_true] at hcv
      have hcf : c / f ≤ 0 := div_nonpos_of_nonpos_of_nonneg (by linarith) hpos.le
      have h8 : ¬ (8 / 10 < c / f) := by linarith
      have h5 : ¬ (5 / 10 < c / f) := by linarith
      rw [if_neg h8, if_neg h5]
      simp [congestionOf, hcna, hstrict, hcn, hfn, JSNum.div, JSNum.gt, hne]

theorem congestionOf_mem (cs fs : SpeedText) :
    congestionOf cs fs ∈ ["Low", "Medium", "High", "Unknown"] := by
  unfold congestionOf
  dsimp only
  split_ifs <;> simp

theorem congestionOf_mem_of_isNotNA (cs fs : SpeedText) (hna : cs.isNotNA = true) :
    congestionOf cs fs ∈ ["Low", "Medium", "High"] := by
  have h : (cs.isNotNA && fs.strictNeZero) = true := by
    rw [hna]
    cases fs <;> rfl
  unfold congestionOf
  rw [if_pos h]
  dsimp only
  split_ifs <;> simp

theorem speedReport_of_present (outcomes : List (Option FlowSegmentData))
    (h : presentRecords outcomes ≠ []) :
    (speedReport outcomes).currentSpeed =
        toFixed1 (doubleAverage ((presentRecords outcomes).map (·.currentSpeed))) ∧
      (speedReport outcomes).freeFlowSpeed =
        toFixed1 (doubleAverage ((presentRecords outcomes).map (·.freeFlowSpeed))) := by
  have hlen : (presentRecords outcomes).length ≠ 0 := by
    simpa [List.length_eq_zero] using h
  simp [speedReport, flowTotals_eq, averageText, hlen, doubleAverage]

theorem speedReport_of_absent (outcomes : List (Option FlowSegmentData))
    (h : presentRecords outcomes = []) :
    (speedReport outcomes).currentSpeed = .na ∧ (speedReport outcomes).freeFlowSpeed = .na ∧
      (speedReport outcomes).congestion = "Unknown" := by
  simp [speedReport, flowTotals_eq, averageText, h, congestionOf, SpeedText.isNotNA]

theorem speedReport_congestion_mem (outcomes : List (Option FlowSegmentData))
    (h : presentRecords outcomes ≠ []) :
    (speedReport outcomes).congestion ∈ ["Low", "Medium", "High"] := by
  have hna : (speedReport outcomes).currentSpeed.isNotNA = true := by
    rw [(speedReport_of_present outcomes h).1]
    exact toFixed1_isNotNA _
  exact congestionOf_mem_of_isNotNA _ _ hna

theorem halvings_spec (fuel n : ℕ) (hle : n ≤ fuel) (hn : n ≠ 0) :
    2 ^ halvings fuel n ≤ n ∧ n < 2 ^ (halvings fuel n + 1) := by
  induction fuel generalizing n with
  | zero => omega
  | succ fuel ih =>
    unfold halvings
    by_cases h2 : 2 ≤ n
    · rw [if_pos h2]
      obtain ⟨h1, h3⟩ := ih (n / 2) (by omega) (by omega)
      rw [pow_succ] at h3 ⊢
      rw [pow_succ]
      constructor <;> omega
    · rw [if_neg h2]
      constructor <;> simp <;> omega

theorem bitLog_spec (n : ℕ) (hn : n ≠ 0) : 2 ^ bitLog n ≤ n ∧ n < 2 ^ (bitLog n + 1) :=
  halvings_spec n n (le_refl n) hn

theorem pow2_eq_zpow (e : ℤ) : pow2 e = (2 : ℚ) ^ e := by
  unfold pow2
  split
  · next h =>
    obtain ⟨k, rfl⟩ := Int.eq_ofNat_of_zero_le h
    simp
  · next h =>
    obtain ⟨k, hk⟩ := Int.exists_eq_neg_ofNat (le_of_lt (not_le.mp h))
    subst hk
    simp

theorem ratio_between_pow2 (N D P R : ℕ) (a : ℚ) (hD : 0 < D) (haeq : a = (N : ℚ) / (D : ℚ))
    (n1 : 2 ^ P ≤ N) (n2 : N < 2 ^ (P + 1)) (d1 : 2 ^ R ≤ D) (d2 : D < 2 ^ (R + 1)) :
    (2 : ℚ) ^ ((P : ℤ) - (R : ℤ) - 1) ≤ a ∧ a < (2 : ℚ) ^ ((P : ℤ) - (R : ℤ) + 1) := by
  have hden : (0 : ℚ) < (D : ℚ) := by exact_mod_cast hD
  have n1q : (2 : ℚ) ^ P ≤ (N : ℚ) := by exact_mod_cast n1
  have n2q : (N : ℚ) < (2 : ℚ) ^ (P + 1) := by exact_mod_cast n2
  have d1q : (2 : ℚ) ^ R ≤ (D : ℚ) := by exact_mod_cast d1
  have d2q : (D : ℚ) < (2 : ℚ) ^ (R + 1) := by exact_mod_cast d2
  have two : (2 : ℚ) ≠ 0 := by norm_num
  have hN : (0 : ℚ) ≤ (N : ℚ) := Nat.cast_nonneg N
  have e1 : (2 : ℚ) ^ ((P : ℤ) - (R : ℤ) - 1) = (2 : ℚ) ^ P / (2 : ℚ) ^ (R + 1) := by
    rw [show ((P : ℤ) - (R : ℤ) - 1) = (P : ℤ) - ((R + 1 : ℕ) : ℤ) by push_cast; ring]
    rw [zpow_sub₀ two, zpow_natCast, zpow_natCast]
  have e2 : (2 : ℚ) ^ ((P : ℤ) - (R : ℤ) + 1) = (2 : ℚ) ^ (P + 1) / (2 : ℚ) ^ R := by
    rw [show ((P : ℤ) - (R : ℤ) + 1) = ((P + 1 : ℕ) : ℤ) - (R : ℤ) by push_cast; ring]
    rw [zpow_sub₀ two, zpow_natCast, zpow_natCast]
  constructor
  · rw [e1, haeq, div_le_div_iff₀ (by positivity) hden]
    calc (2 : ℚ) ^ P * (D : ℚ) ≤ (N : ℚ) * (D : ℚ) :=
          mul_le_mul_of_nonneg_right n1q hden.le
      _ ≤ (N : ℚ) * (2 : ℚ) ^ (R + 1) := mul_le_mul_of_nonneg_left d2q.le hN
  · rw [e2, haeq, div_lt_div_iff₀ hden (by positivity)]
    calc (N : ℚ) * (2 : ℚ) ^ R ≤ (N : ℚ) * (D : ℚ) := mul_le_mul_of_nonneg_left d1q hN
      _ < (2 : ℚ) ^ (P + 1) * (D : ℚ) := mul_lt_mul_of_pos_right n2q hden

theorem floorLog2_spec (a : ℚ) (ha : 0 < a) :
    pow2 (floorLog2 a) ≤ a ∧ a < pow2 (floorLog2 a + 1) := by
  have hnum : 0 < a.num := Rat.num_pos.mpr ha
  have hn0 : a.num.natAbs ≠ 0 := by
    intro h
    rw [Int.natAbs_eq_zero] at h
    omega
  obtain ⟨n1, n2⟩ := bitLog_spec a.num.natAbs hn0
  obtain ⟨d1, d2⟩ := bitLog_spec a.den a.den_nz
  have haeq : a = (a.num.natAbs : ℚ) / (a.den : ℚ) := by
    have h1 : ((a.num.natAbs : ℤ) : ℚ) = (a.num : ℚ) := by
      rw [Int.natAbs_of_nonneg hnum.le]
    rw [← Int.cast_natCast, h1]
    exact (Rat.num_div_den a).symm
  obtain ⟨hlow, hup⟩ := ratio_between_pow2 _ _ _ _ a a.den_pos haeq n1 n2 d1 d2
  unfold floorLog2
  dsimp only
  split
  · next hlt =>
    rw [pow2_eq_zpow] at hlt
    rw [pow2_eq_zpow, pow2_eq_zpow, sub_add_cancel]
    exact ⟨hlow, hlt⟩
  · next hge =>
    rw [pow2_eq_zpow] at hge
    rw [pow2_eq_zpow, pow2_eq_zpow]
    exact ⟨not_lt.mp hge, hup⟩

theorem roundHalfEven_natCast (N : ℕ) : roundHalfEven (N : ℚ) = N := by
  simp [roundHalfEven]

theorem roundHalfEven_error (q : ℚ) (hq : 0 ≤ q) : |(roundHalfEven q : ℚ) - q| ≤ 1 / 2 := by
  have h1 : ((⌊q⌋₊ : ℕ) : ℚ) ≤ q := Nat.floor_le hq
  have h2 : q < ((⌊q⌋₊ : ℕ) : ℚ) + 1 := Nat.lt_floor_add_one q
  unfold roundHalfEven
  dsimp only
  split_ifs <;> push_cast <;> rw [abs_le] <;> constructor <;> linarith

theorem roundToDouble_error (neg : Bool) (a : ℚ) (ha : 0 < a) :
    |(roundHalfEven (a / pow2 (max (floorLog2 a - 52) (-1074))) : ℚ)
        * pow2 (max (floorLog2 a - 52) (-1074)) - a|
      ≤ pow2 (max (floorLog2 a - 52) (-1074)) / 2 ∧
    (¬ pow2 1024 ≤ (roundHalfEven (a / pow2 (max (floorLog2 a - 52) (-1074))) : ℚ)
        * pow2 (max (floorLog2 a - 52) (-1074)) →
      roundToDouble neg a = .fin neg ((roundHalfEven
        (a / pow2 (max (floorLog2 a - 52) (-1074))) : ℚ)
          * pow2 (max (floorLog2 a - 52) (-1074)))) := by
  constructor
  · generalize max (floorLog2 a - 52) (-1074) = g
    have hp := pow2_pos g
    have hq : 0 ≤ a / pow2 g := div_nonneg ha.le hp.le
    have h := roundHalfEven_error (a / pow2 g) hq
    have e : (roundHalfEven (a / pow2 g) : ℚ) * pow2 g - a
        = ((roundHalfEven (a / pow2 g) : ℚ) - a / pow2 g) * pow2 g := by
      field_simp
    rw [e, abs_mul, abs_of_pos hp]
    calc |(roundHalfEven (a / pow2 g) : ℚ) - a / pow2 g| * pow2 g
        ≤ 1 / 2 * pow2 g := mul_le_mul_of_nonneg_right h hp.le
      _ = pow2 g / 2 := by ring
  · intro hno
    unfold roundToDouble
    rw [if_neg (ne_of_gt ha)]
    dsimp only
    rw [if_neg hno]

theorem roundToDouble_natCast (neg : Bool) (k : ℕ) (h0 : 0 < k) (hk : k < 2 ^ 53) :
    roundToDouble neg (k : ℚ) = .fin neg (k : ℚ) := by
  have hkq : (0 : ℚ) < (k : ℚ) := by exact_mod_cast h0
  obtain ⟨s1, s2⟩ := floorLog2_spec (k : ℚ) hkq
  rw [pow2_eq_zpow] at s1 s2
  have one2 : (1 : ℚ) < 2 := by norm_num
  have hk53 : (k : ℚ) < (2 : ℚ) ^ (53 : ℤ) := by
    have h : (k : ℚ) < ((2 ^ 53 : ℕ) : ℚ) := Nat.cast_lt.mpr hk
    have e : ((2 ^ 53 : ℕ) : ℚ) = (2 : ℚ) ^ (53 : ℤ) := by norm_num
    rw [e] at h
    exact h
  have hk1 : (2 : ℚ) ^ (0 : ℤ) ≤ (k : ℚ) := by
    have : (1 : ℚ) ≤ (k : ℚ) := by exact_mod_cast h0
    simpa using this
  have e52 : floorLog2 (k : ℚ) < 53 :=
    (zpow_lt_zpow_iff_right₀ one2).mp (lt_of_le_of_lt s1 hk53)
  have e0 : (0 : ℤ) < floorLog2 (k : ℚ) + 1 :=
    (zpow_lt_zpow_iff_right₀ one2).mp (lt_of_le_of_lt hk1 s2)
  obtain ⟨j, hj⟩ : ∃ j : ℕ, floorLog2 (k : ℚ) - 52 = -(j : ℤ) :=
    ⟨(52 - floorLog2 (k : ℚ)).toNat, by omega⟩
  have hg : max (floorLog2 (k : ℚ) - 52) (-1074) = -(j : ℤ) := by
    rw [hj]
    apply max_eq_left
    omega
  have hpg : pow2 (-(j : ℤ)) = 1 / (2 : ℚ) ^ j := by
    rw [pow2_eq_zpow, zpow_neg, zpow_natCast, one_div]
  have hscaled : (k : ℚ) / pow2 (-(j : ℤ)) = ((k * 2 ^ j : ℕ) : ℚ) := by
    rw [hpg]
    push_cast
    field_simp
  unfold roundToDouble
  rw [if_neg (ne_of_gt hkq)]
  dsimp only
  rw [hg, hscaled, roundHalfEven_natCast, hpg]
  have hmag : ((k * 2 ^ j : ℕ) : ℚ) * (1 / (2 : ℚ) ^ j) = (k : ℚ) := by
    push_cast
    field_simp
  rw [hmag]
  have hno : ¬ pow2 1024 ≤ (k : ℚ) := by
    rw [pow2_eq_zpow, not_le]
    exact lt_trans hk53 ((zpow_lt_zpow_iff_right₀ one2).mpr (by norm_num))
  rw [if_neg hno]

theorem signed_decide_abs (s : ℚ) : signed (decide (s < 0)) |s| = s := by
  by_cases h : s < 0
  · simp [signed, h, abs_of_neg h]
  · simp [signed, h, abs_of_nonneg (not_lt.mp h)]

theorem ofRat_of_int (q : ℚ) (hq : ∃ k : ℤ, q = k) (hb : |q| < 2 ^ 53) :
    JSNum.ofRat q = JSNum.ofExact q := by
  obtain ⟨k, rfl⟩ := hq
  unfold JSNum.ofRat JSNum.ofExact
  by_cases hk : k = 0
  · subst hk
    simp [roundToDouble]
  · have habs : |(k : ℚ)| = ((k.natAbs : ℕ) : ℚ) := by
      rw [Nat.cast_natAbs, Int.cast_abs]
    rw [habs] at hb ⊢
    have h0 : 0 < k.natAbs := Int.natAbs_pos.mpr hk
    have h53 : k.natAbs < 2 ^ 53 := by exact_mod_cast hb
    exact roundToDouble_natCast _ _ h0 h53

theorem add_ofExact (s x : ℚ) (hsx : ∃ k : ℤ, s + x = k) (hb : |s + x| < 2 ^ 53) :
    (JSNum.ofExact s).add (JSNum.ofExact x) = JSNum.ofExact (s + x) := by
  unfold JSNum.ofExact JSNum.add
  simp only [signed_decide_abs]
  by_cases h0 : s + x = 0
  · rw [if_pos h0, h0]
    have hnot : ¬ (s < 0 ∧ x < 0) := by
      rintro ⟨h1, h2⟩
      linarith
    by_cases h1 : s < 0
    · have h2 : ¬ x < 0 := fun h2 => hnot ⟨h1, h2⟩
      simp [h1, h2]
    · simp [h1]
  · rw [if_neg h0]
    exact ofRat_of_int _ hsx hb

theorem foldl_add_int (xs : List ℚ) (s0 : ℚ) (hs0 : ∃ k : ℤ, s0 = k)
    (hx : ∀ x ∈ xs, ∃ k : ℤ, x = k) (hb : |s0| + (xs.map (fun x => |x|)).sum < 2 ^ 53) :
    xs.foldl (fun total x => total.add (JSNum.ofRat x)) (JSNum.ofExact s0)
      = JSNum.ofExact (s0 + xs.sum) := by
  induction xs generalizing s0 with
  | nil => simp
  | cons x xs ih =>
    have hxi : ∃ k : ℤ, x = k := hx x (List.mem_cons_self x xs)
    have hxs : ∀ y ∈ xs, ∃ k : ℤ, y = k := fun y hy => hx y (List.mem_cons_of_mem x hy)
    simp only [List.map_cons, List.sum_cons] at hb
    have hnn : 0 ≤ (xs.map (fun x => |x|)).sum :=
      List.sum_nonneg (by
        intro y hy
        obtain ⟨z, _, rfl⟩ := List.mem_map.mp hy
        exact abs_nonneg z)
    have hxb : |x| < 2 ^ 53 := by
      have := abs_nonneg s0
      linarith
    have hsum : ∃ k : ℤ, s0 + x = k := by
      obtain ⟨a, ha⟩ := hs0
      obtain ⟨b, hb1⟩ := hxi
      exact ⟨a + b, by rw [ha, hb1]; push_cast; ring⟩
    have htri : |s0 + x| ≤ |s0| + |x| := abs_add s0 x
    rw [List.foldl_cons, ofRat_of_int x hxi hxb, add_ofExact s0 x hsum (by linarith),
      ih (s0 + x) hsum hxs (by linarith), List.sum_cons, add_assoc]

theorem doubleSum_int (xs : List ℚ) (hx : ∀ x ∈ xs, ∃ k : ℤ, x = k)
    (hb : (xs.map (fun x => |x|)).sum < 2 ^ 53) :
    doubleSum xs = JSNum.ofExact xs.sum := by
  have h := foldl_add_int xs 0 ⟨0, by simp⟩ hx (by simpa using hb)
  have e : JSNum.ofExact 0 = .fin false 0 := by simp [JSNum.ofExact]
  rw [e, zero_add] at h
  exact h

theorem pow2_grid_small (a : ℚ) (ha : 0 < a) (n : ℕ) (hn : 0 < n) (hn53 : n < 2 ^ 53)
    (hsmall : 20 * (a * n) < 2 ^ 53) :
    pow2 (max (floorLog2 a - 52) (-1074)) / 2 < 1 / (20 * (n : ℚ)) := by
  have hnq : (0 : ℚ) < (n : ℚ) := by exact_mod_cast hn
  have hn53q : (n : ℚ) < 2 ^ 53 := by exact_mod_cast hn53
  rw [lt_div_iff₀ (by positivity)]
  rcases le_total (floorLog2 a - 52) (-1074) with h | h
  · rw [max_eq_right h, pow2_eq_zpow]
    have e : (2 : ℚ) ^ (-1074 : ℤ) = 1 / 2 ^ 1074 := by
      rw [zpow_neg, one_div]
      norm_cast
    rw [e]
    have h1 : (1 : ℚ) / 2 ^ 1074 / 2 * (20 * (n : ℚ)) < 1 / 2 ^ 1074 / 2 * (20 * 2 ^ 53) := by
      apply mul_lt_mul_of_pos_left _ (by positivity)
      linarith
    have h2 : (1 : ℚ) / 2 ^ 1074 / 2 * (20 * 2 ^ 53) < 1 := by norm_num
    linarith
  · rw [max_eq_left h]
    have hlow := (floorLog2_spec a ha).1
    have e : pow2 (floorLog2 a - 52) = pow2 (floorLog2 a) / 2 ^ 52 := by
      rw [pow2_eq_zpow, pow2_eq_zpow, zpow_sub₀ (by norm_num : (2 : ℚ) ≠ 0)]
      norm_cast
    rw [e]
    have h1 : pow2 (floorLog2 a) / 2 ^ 52 / 2 * (20 * (n : ℚ))
        ≤ a / 2 ^ 52 / 2 * (20 * (n : ℚ)) := by
      apply mul_le_mul_of_nonneg_right _ (by positivity)
      apply div_le_div_of_nonneg_right _ (by norm_num)
      exact div_le_div_of_nonneg_right hlow (by positivity)
    have h2 : a / 2 ^ 52 / 2 * (20 * (n : ℚ)) = 20 * (a * n) / 2 ^ 53 := by
      field_simp
      ring
    have h3 : 20 * (a * n) / 2 ^ 53 < 1 := by
      rw [div_lt_one (by positivity)]
      exact hsmall
    linarith

theorem signed_sub_abs (neg : Bool) (x y : ℚ) : |signed neg x - signed neg y| = |x - y| := by
  cases neg with
  | false => simp [signed]
  | true =>
    simp only [signed, if_true]
    rw [show -x - -y = -(x - y) by ring, abs_neg]

theorem tenth_near_of_int (k j : ℤ) (n : ℕ) (hn : 0 < n)
    (h : |(k : ℚ) / n - (j : ℚ) / 10| < 1 / (20 * (n : ℚ)) + 1 / 20) :
    |(k : ℚ) / n - (j : ℚ) / 10| ≤ 1 / 20 := by
  have hnq : (0 : ℚ) < (n : ℚ) := by exact_mod_cast hn
  have hz : (k : ℚ) / n - (j : ℚ) / 10 = ((10 * k - j * n : ℤ) : ℚ) / (10 * (n : ℚ)) := by
    push_cast
    field_simp
    ring
  rw [hz, abs_div, abs_of_pos (by positivity : (0 : ℚ) < 10 * (n : ℚ))] at h ⊢
  generalize (10 * k - j * n : ℤ) = z at h ⊢
  have h1 : |(z : ℚ)| * 2 < 1 + (n : ℚ) := by
    rw [div_lt_iff₀ (by positivity)] at h
    have e : (1 / (20 * (n : ℚ)) + 1 / 20) * (10 * (n : ℚ)) = 1 / 2 + (n : ℚ) / 2 := by
      field_simp
      ring
    rw [e] at h
    linarith
  have h2 : |z| * 2 < 1 + (n : ℤ) := by
    have : ((|z| * 2 : ℤ) : ℚ) < ((1 + (n : ℤ) : ℤ) : ℚ) := by
      push_cast
      exact h1
    exact_mod_cast this
  have h3 : |z| * 2 ≤ (n : ℤ) := by omega
  have h4 : |(z : ℚ)| * 2 ≤ (n : ℚ) := by
    have : ((|z| * 2 : ℤ) : ℚ) ≤ (((n : ℤ) : ℤ) : ℚ) := by exact_mod_cast h3
    push_cast at this
    exact this
  rw [div_le_iff₀ (by positivity)]
  linarith

theorem toFixed1_average_int (t : ℚ) (ht : ∃ k : ℤ, t = k) (n : ℕ) (hn : 0 < n)
    (hn53 : n < 2 ^ 53) (hsmall : 20 * |t| < 2 ^ 53) :
    ∃ c, (toFixed1 ((JSNum.ofExact t).div (.fin false n)).round).value = some c ∧
      IsRoundedToTenth (t / n) c := by
  have hnq : (0 : ℚ) < (n : ℚ) := by exact_mod_cast hn
  have hdiv : ((JSNum.ofExact t).div (.fin false n)).round
      = roundToDouble (decide (t < 0)) (|t| / n) := by
    simp [JSNum.ofExact, JSNum.div, JSNum.round, ne_of_gt hnq]
  rw [hdiv]
  have hsgn : signed (decide (t < 0)) (|t| / n) = t / n := by
    by_cases h : t < 0
    · simp only [signed, h, decide_True, if_true, abs_of_neg h]
      ring
    · simp [signed, h, abs_of_nonneg (not_lt.mp h)]
  by_cases ht0 : t = 0
  · subst ht0
    have hz : roundToDouble (decide ((0 : ℚ) < 0)) (|(0 : ℚ)| / n) = .fin false 0 := by
      simp [roundToDouble]
    rw [hz]
    obtain ⟨v, hv, hr⟩ := toFixed1_rounds false 0 (le_refl 0) (by norm_num)
    refine ⟨v, hv, ?_⟩
    simpa [signed] using hr
  · have ha : 0 < |t| / n := div_pos (abs_pos.mpr ht0) hnq
    have hsm : 20 * (|t| / n * n) < 2 ^ 53 := by
      rw [div_mul_cancel₀ _ (ne_of_gt hnq)]
      exact hsmall
    obtain ⟨herr, hfin⟩ := roundToDouble_error (decide (t < 0)) (|t| / n) ha
    have hgrid := pow2_grid_small (|t| / n) ha n hn hn53 hsm
    generalize (roundHalfEven (|t| / n / pow2 (max (floorLog2 (|t| / n) - 52) (-1074))) : ℚ)
      * pow2 (max (floorLog2 (|t| / n) - 52) (-1074)) = m at herr hfin
    have hclose : |m - |t| / n| < 1 / (20 * (n : ℚ)) := lt_of_le_of_lt herr hgrid
    have hone : (1 : ℚ) ≤ (n : ℚ) := by exact_mod_cast hn
    have hle1 : 1 / (20 * (n : ℚ)) ≤ 1 := by
      rw [div_le_one (by positivity)]
      linarith
    have hale : |t| / n ≤ |t| := div_le_self (abs_nonneg t) hone
    have hmup : m < 2 ^ 53 + 1 := by
      have := (abs_lt.mp hclose).2
      have h0 := abs_nonneg t
      linarith
    have hov : ¬ pow2 1024 ≤ m := by
      rw [pow2_eq_zpow, not_le]
      have e54 : (2 : ℚ) ^ (54 : ℤ) = 2 ^ 54 := by norm_cast
      have h54 : m < (2 : ℚ) ^ (54 : ℤ) := by
        rw [e54]
        have : (2 : ℚ) ^ 53 + 1 < 2 ^ 54 := by norm_num
        linarith
      exact lt_trans h54 ((zpow_lt_zpow_iff_right₀ (by norm_num : (1 : ℚ) < 2)).mpr (by norm_num))
    have hrd : roundToDouble (decide (t < 0)) (|t| / n) = .fin (decide (t < 0)) m := hfin hov
    have hm0 : 0 ≤ m := roundToDouble_fin_nonneg _ _ _ _ hrd
    rw [hrd]
    have hlt21 : m < 10 ^ 21 := by
      have : (2 : ℚ) ^ 53 + 1 < 10 ^ 21 := by norm_num
      linarith
    obtain ⟨v, hv, ⟨j, hj⟩, hvabs⟩ := toFixed1_rounds (decide (t < 0)) m hm0 hlt21
    refine ⟨v, hv, ⟨j, hj⟩, ?_⟩
    obtain ⟨k, hk⟩ := ht
    have hnear : |t / n - v| < 1 / (20 * (n : ℚ)) + 1 / 20 := by
      have h1 : |signed (decide (t < 0)) (|t| / n) - signed (decide (t < 0)) m|
          < 1 / (20 * (n : ℚ)) := by
        rw [signed_sub_abs, abs_sub_comm]
        exact hclose
      rw [hsgn] at h1
      calc |t / n - v|
          = |(t / n - signed (decide (t < 0)) m) + (signed (decide (t < 0)) m - v)| := by
            congr 1
            ring
        _ ≤ |t / n - signed (decide (t < 0)) m| + |signed (decide (t < 0)) m - v| :=
            abs_add _ _
        _ < 1 / (20 * (n : ℚ)) + 1 / 20 := by linarith
    rw [hk, hj] at hnear ⊢
    exact tenth_near_of_int k j n hn hnear

theorem sum_int (xs : List ℚ) (hx : ∀ x ∈ xs, ∃ k : ℤ, x = k) : ∃ k : ℤ, xs.sum = k := by
  induction xs with
  | nil => exact ⟨0, by simp⟩
  | cons x xs ih =>
    obtain ⟨a, ha⟩ := hx x (List.mem_cons_self x xs)
    obtain ⟨b, hb⟩ := ih (fun y hy => hx y (List.mem_cons_of_mem x hy))
    exact ⟨a + b, by rw [List.sum_cons, ha, hb]; push_cast; ring⟩

theorem abs_sum_le (xs : List ℚ) : |xs.sum| ≤ (xs.map (fun x => |x|)).sum := by
  induction xs with
  | nil => simp
  | cons x xs ih =>
    simp only [List.sum_cons, List.map_cons]
    exact le_trans (abs_add x xs.sum) (by linarith)

theorem doubleAverage_int_rounded (xs : List ℚ) (hne : xs ≠ []) (hlen : xs.length < 2 ^ 53)
    (hx : ∀ x ∈ xs, ∃ k : ℤ, x = k) (hb : 20 * (xs.map (fun x => |x|)).sum < 2 ^ 53) :
    ∃ c, (toFixed1 (doubleAverage xs)).value = some c ∧
      IsRoundedToTenth (xs.sum / xs.length) c := by
  have hpos : 0 < xs.length := List.length_pos.mpr hne
  have hle := abs_sum_le xs
  have h0 := abs_nonneg xs.sum
  unfold doubleAverage
  rw [doubleSum_int xs hx (by linarith)]
  exact toFixed1_average_int xs.sum (sum_int xs hx) xs.length hpos hlen (by linarith)

theorem presentRecords_map_none {α : Type} (xs : List α) (g : α → Option FlowSegmentData)
    (h : ∀ p ∈ xs, g p = none) : presentRecords (xs.map g) = [] := by
  induction xs with
  | nil => rfl
  | cons x xs ih =>
    have hx : g x = none := h x (List.mem_cons_self x xs)
    have hxs : ∀ p ∈ xs, g p = none := fun p hp => h p (List.mem_cons_of_mem x hp)
    simpa [presentRecords, hx] using ih hxs

/-! ## The claims about the classification and the aggregation -/

/-- C1: for averaged speeds produced by the aggregator from at least one flow
record, with a rounded free-flow average above zero and `c / f` the ratio of the
two rounded averages, the label is Low exactly when the ratio is above 0.8,
Medium exactly when it is above 0.5 and at most 0.8, and High exactly when it is
at most 0.5; the ratios 0.81, 0.8, 0.51 and 0.5 give Low, Medium, Medium, High. -/
theorem congestion_thresholds :
    (∀ (outcomes : List (Option FlowSegmentData)) (c f : ℚ),
      presentRecords outcomes ≠ [] →
      (speedReport outcomes).currentSpeed.value = some c →
      (speedReport outcomes).freeFlowSpeed.value = some f →
      0 < f →
      ((speedReport outcomes).congestion = "Low" ↔ 8 / 10 < c / f) ∧
      ((speedReport outcomes).congestion = "Medium" ↔ 5 / 10 < c / f ∧ c / f ≤ 8 / 10) ∧
      ((speedReport outcomes).congestion = "High" ↔ c / f ≤ 5 / 10)) ∧
    (speedReport [some ⟨81, 100⟩]).congestion = "Low" ∧
    (speedReport [some ⟨80, 100⟩]).congestion = "Medium" ∧
    (speedReport [some ⟨51, 100⟩]).congestion = "Medium" ∧
    (speedReport [some ⟨50, 100⟩]).congestion = "High" := by
  refine ⟨?_, by decide!, by decide!, by decide!, by decide!⟩
  intro outcomes c f hne hc hf hpos
  obtain ⟨e1, e2⟩ := speedReport_of_present outcomes hne
  have hlab : (speedReport outcomes).congestion =
      if 8 / 10 < c / f then "Low" else if 5 / 10 < c / f then "Medium" else "High" :=
    congestionOf_of_value _ _ c f
      (fun n m h => toFixed1_exponent_nonneg _ n m (e1.symm.trans h))
      (fun n m h => toFixed1_exponent_nonneg _ n m (e2.symm.trans h)) hc hf hpos
  rw [hlab]
  by_cases h8 : 8 / 10 < c / f
  · have h5 : 5 / 10 < c / f := by linarith
    simp [h8, not_le.mpr h8, not_le.mpr h5]
  · by_cases h5 : 5 / 10 < c / f
    · simp [h8, h5, not_lt.mp h8, not_le.mpr h5]
    · simp [h8, h5, not_lt.mp h5]

/-- Witness of C1: one record with speeds 81 and 100. -/
theorem congestion_thresholds_witness :
    presentRecords [some (⟨81, 100⟩ : FlowSegmentData)] ≠ [] ∧
      (speedReport [some ⟨81, 100⟩]).currentSpeed.value = some 81 ∧
      (speedReport [some ⟨81, 100⟩]).freeFlowSpeed.value = some 100 ∧
      ((speedReport [some ⟨81, 100⟩]).congestion = "Low" ↔ (8 : ℚ) / 10 < 81 / 100) :=
  ⟨by simp [presentRecords], by decide!, by decide!,
    (congestion_thresholds.1 [some ⟨81, 100⟩] 81 100 (by simp [presentRecords])
      (by decide!) (by decide!) (by norm_num)).1⟩

/-- C2, the code at the failing input: one record with current speed 30 and
free-flow speed 0 gives the texts `30.0` and `0.0` and the label Low, not
Unknown; and no list of outcomes with a flow record is ever labelled Unknown,
whatever its free-flow average. -/
theorem zero_free_flow_is_labelled :
    ((speedReport [some ⟨30, 0⟩]).currentSpeed = .fixed false 300 ∧
      (speedReport [some ⟨30, 0⟩]).freeFlowSpeed = .fixed false 0 ∧
      (speedReport [some ⟨30, 0⟩]).congestion = "Low") ∧
    ∀ outcomes : List (Option FlowSegmentData), presentRecords outcomes ≠ [] →
      (speedReport outcomes).congestion ≠ "Unknown" := by
  refine ⟨⟨by decide!, by decide!, by decide!⟩, ?_⟩
  intro outcomes h
  have hmem := speedReport_congestion_mem outcomes h
  intro hu
  rw [hu] at hmem
  simp at hmem

/-- C3: when no lookup of a route gives a flow record (every one failed or was
empty, or there was no sample at all), both speeds of the result are the text
`N/A` and the label is Unknown. -/
theorem no_flow_record_gives_unknown (env : Lookups) (r : DirectionsRoute)
    (h : ∀ p ∈ samples r.overview_path, env.flow p = none) :
    (processRoute env r).currentSpeed = .na ∧ (processRoute env r).freeFlowSpeed = .na ∧
      (processRoute env r).currentSpeed.text = "N/A" ∧
      (processRoute env r).freeFlowSpeed.text = "N/A" ∧
      (processRoute env r).congestion = "Unknown" := by
  have h0 := speedReport_of_absent _ (presentRecords_map_none _ env.flow h)
  simp only [processRoute]
  rw [h0.1, h0.2.1, h0.2.2]
  exact ⟨rfl, rfl, rfl, rfl, rfl⟩

/-- Witness of C3: a path of five points whose lookups all fail. -/
theorem no_flow_record_gives_unknown_witness :
    (processRoute ⟨fun _ => none, fun _ => none⟩
        ⟨"A", "1 km", "2 mins", [⟨0, 0⟩, ⟨1, 0⟩, ⟨2, 0⟩, ⟨3, 0⟩, ⟨4, 0⟩], ""⟩).congestion
      = "Unknown" :=
  (no_flow_record_gives_unknown ⟨fun _ => none, fun _ => none⟩
    ⟨"A", "1 km", "2 mins", [⟨0, 0⟩, ⟨1, 0⟩, ⟨2, 0⟩, ⟨3, 0⟩, ⟨4, 0⟩], ""⟩
    (fun _ _ => rfl)).2.2.2.2

/-- C4 as stated fails: of five lookups two give a record, with current speeds
0.3 and 0.00000000000000002.  The exact average 0.15000000000000001 is nearer to
0.2 than to 0.1, but the double sum of the two speeds is the double of 0.3, its
half is below 0.15, and the code reports `0.1`. -/
theorem average_of_doubles_not_exact :
    (speedReport [none, some ⟨3 / 10, 1⟩, none, some ⟨2 / 100000000000000000, 1⟩, none]).currentSpeed.text
        = "0.1" ∧
      (speedReport [none, some ⟨3 / 10, 1⟩, none, some ⟨2 / 100000000000000000, 1⟩, none]).currentSpeed.value
        = some (1 / 10) ∧
      ¬ IsRoundedToTenth
        (((presentRecords [none, some ⟨3 / 10, 1⟩, none, some ⟨2 / 100000000000000000, 1⟩, none]).map
          (·.currentSpeed)).sum /
          (presentRecords [none, some (⟨3 / 10, 1⟩ : FlowSegmentData), none,
            some ⟨2 / 100000000000000000, 1⟩, none]).length) (1 / 10) := by
  refine ⟨by decide!, by decide!, ?_⟩
  rintro ⟨_, h⟩
  simp only [presentRecords, List.filterMap_cons, List.filterMap_nil, id, List.map_cons,
    List.map_nil, List.sum_cons, List.sum_nil, List.length_cons, List.length_nil] at h
  norm_num [abs_le] at h

/-- C4, amended: when the outcomes hold at least one flow record, the reported
current speed is `toFixed(1)` of the average as the code computes it in double
arithmetic (the current speeds of the records are added from left to right,
each sum rounded to a double, and the total is divided by the number of records
and rounded to a double), and the free-flow speed likewise; when that double is
finite and below `10 ^ 21` the reported value is a whole number of tenths within
0.05 of it; outcomes without a record change nothing, wherever they stand; when
the speeds of the records are whole numbers whose absolute values sum to less
than `2 ^ 53 / 20` (and there are fewer than `2 ^ 53` records) the reported
value is the exact average rounded to one decimal; five outcomes with the two
records (30, 40) and (20, 50) give 25.0, 45.0 and Medium. -/
theorem averages_over_present_records :
    (∀ outcomes : List (Option FlowSegmentData), presentRecords outcomes ≠ [] →
      (speedReport outcomes).currentSpeed =
          toFixed1 (doubleAverage ((presentRecords outcomes).map (·.currentSpeed))) ∧
        (speedReport outcomes).freeFlowSpeed =
          toFixed1 (doubleAverage ((presentRecords outcomes).map (·.freeFlowSpeed))) ∧
        (∀ neg mag,
          doubleAverage ((presentRecords outcomes).map (·.currentSpeed)) = .fin neg mag →
          mag < 10 ^ 21 →
          ∃ c, (speedReport outcomes).currentSpeed.value = some c ∧
            IsRoundedToTenth (signed neg mag) c) ∧
        (∀ neg mag,
          doubleAverage ((presentRecords outcomes).map (·.freeFlowSpeed)) = .fin neg mag →
          mag < 10 ^ 21 →
          ∃ f, (speedReport outcomes).freeFlowSpeed.value = some f ∧
            IsRoundedToTenth (signed neg mag) f)) ∧
    (∀ outcomes : List (Option FlowSegmentData),
      flowTotals outcomes = flowTotals ((presentRecords outcomes).map some)) ∧
    (∀ outcomes : List (Option FlowSegmentData), presentRecords outcomes ≠ [] →
      (presentRecords outcomes).length < 2 ^ 53 →
      ((∀ x ∈ (presentRecords outcomes).map (·.currentSpeed), ∃ k : ℤ, x = (k : ℚ)) →
        20 * (((presentRecords outcomes).map (·.currentSpeed)).map (fun x => |x|)).sum
          < 2 ^ 53 →
        ∃ c, (speedReport outcomes).currentSpeed.value = some c ∧
          IsRoundedToTenth (((presentRecords outcomes).map (·.currentSpeed)).sum
            / (presentRecords outcomes).length) c) ∧
      ((∀ x ∈ (presentRecords outcomes).map (·.freeFlowSpeed), ∃ k : ℤ, x = (k : ℚ)) →
        20 * (((presentRecords outcomes).map (·.freeFlowSpeed)).map (fun x => |x|)).sum
          < 2 ^ 53 →
        ∃ f, (speedReport outcomes).freeFlowSpeed.value = some f ∧
          IsRoundedToTenth (((presentRecords outcomes).map (·.freeFlowSpeed)).sum
            / (presentRecords outcomes).length) f)) ∧
    ((speedReport [none, some ⟨30, 40⟩, none, some ⟨20, 50⟩, none]).currentSpeed
        = .fixed false 250 ∧
      (speedReport [none, some ⟨30, 40⟩, none, some ⟨20, 50⟩, none]).freeFlowSpeed
        = .fixed false 450 ∧
      (speedReport [none, some ⟨30, 40⟩, none, some ⟨20, 50⟩, none]).currentSpeed.text
        = "25.0" ∧
      (speedReport [none, some ⟨30, 40⟩, none, some ⟨20, 50⟩, none]).freeFlowSpeed.text
        = "45.0" ∧
      (speedReport [none, some ⟨30, 40⟩, none, some ⟨20, 50⟩, none]).congestion
        = "Medium") := by
  refine ⟨?_, ?_, ?_, by decide!, by decide!, by decide!, by decide!, by decide!⟩
  · intro outcomes h
    obtain ⟨hc, hf⟩ := speedReport_of_present outcomes h
    refine ⟨hc, hf, ?_, ?_⟩
    · intro neg mag hd hlt
      rw [hc, hd]
      exact toFixed1_rounds neg mag (doubleAverage_fin_nonneg _ neg mag hd) hlt
    · intro neg mag hd hlt
      rw [hf, hd]
      exact toFixed1_rounds neg mag (doubleAverage_fin_nonneg _ neg mag hd) hlt
  · intro outcomes
    have hp : presentRecords ((presentRecords outcomes).map some) = presentRecords outcomes := by
      simp [presentRecords, List.filterMap_map]
    rw [flowTotals_eq, flowTotals_eq, hp]
  · intro outcomes h hlen
    obtain ⟨hc, hf⟩ := speedReport_of_present outcomes h
    constructor
    · intro hx hb
      have hne : (presentRecords outcomes).map (·.currentSpeed) ≠ [] := by
        simpa using h
      have := doubleAverage_int_rounded _ hne (by simpa using hlen) hx hb
      rw [List.length_map] at this
      rw [hc]
      exact this
    · intro hx hb
      have hne : (presentRecords outcomes).map (·.freeFlowSpeed) ≠ [] := by
        simpa using h
      have := doubleAverage_int_rounded _ hne (by simpa using hlen) hx hb
      rw [List.length_map] at this
      rw [hf]
      exact this

/-- Witness of C4, amended: three outcomes, the middle one without a record. -/
theorem averages_over_present_records_witness :
    presentRecords [some (⟨30, 40⟩ : FlowSegmentData), none, some ⟨21, 50⟩] ≠ [] ∧
      (speedReport [some ⟨30, 40⟩, none, some ⟨21, 50⟩]).currentSpeed =
        toFixed1 (doubleAverage
          ((presentRecords [some ⟨30, 40⟩, none, some ⟨21, 50⟩]).map (·.currentSpeed))) :=
  ⟨by simp [presentRecords],
    (averages_over_present_records.1 [some ⟨30, 40⟩, none, some ⟨21, 50⟩]
      (by simp [presentRecords])).1⟩

/-- C7: the label of every route result is one of Low, Medium, High, Unknown;
and when at least one lookup of the route gave a flow record and the free-flow
average (before or after rounding) is not zero, the label is one of Low, Medium,
High and is not Unknown. -/
theorem congestion_label_closed (env : Lookups) (r : DirectionsRoute) :
    (processRoute env r).congestion ∈ ["Low", "Medium", "High", "Unknown"] ∧
    (presentRecords ((samples r.overview_path).map env.flow) ≠ [] →
      (((presentRecords ((samples r.overview_path).map env.flow)).map (·.freeFlowSpeed)).sum
          / (presentRecords ((samples r.overview_path).map env.flow)).length ≠ 0 ∨
        (processRoute env r).freeFlowSpeed.value ≠ some 0) →
      (processRoute env r).congestion ∈ ["Low", "Medium", "High"] ∧
        (processRoute env r).congestion ≠ "Unknown") := by
  refine ⟨congestionOf_mem _ _, ?_⟩
  intro h _
  have hmem : (processRoute env r).congestion ∈ ["Low", "Medium", "High"] :=
    speedReport_congestion_mem _ h
  refine ⟨hmem, ?_⟩
  intro hu
  rw [hu] at hmem
  simp at hmem

/-- Witness of C7: a path of five points, each with the record (40, 50). -/
theorem congestion_label_closed_witness :
    (processRoute ⟨fun _ => some ⟨40, 50⟩, fun _ => none⟩
        ⟨"A", "1 km", "2 mins", [⟨0, 0⟩, ⟨1, 0⟩, ⟨2, 0⟩, ⟨3, 0⟩, ⟨4, 0⟩], ""⟩).congestion
      ≠ "Unknown" :=
  ((congestion_label_closed ⟨fun _ => some ⟨40, 50⟩, fun _ => none⟩
    ⟨"A", "1 km", "2 mins", [⟨0, 0⟩, ⟨1, 0⟩, ⟨2, 0⟩, ⟨3, 0⟩, ⟨4, 0⟩], ""⟩).2
    (by decide!) (Or.inr (by decide!))).2

/-! ## The sampler -/

theorem filterWithIndex_enumFrom {α : Type} (p : Nat → Bool) (xs : List α) (k : Nat) :
    ((xs.enumFrom k).filter (fun ip => p ip.1)).map Prod.snd =
      ((List.range' k xs.length).filter p).filterMap (fun i => xs[i - k]?) := by
  induction xs generalizing k with
  | nil => simp
  | cons x xs ih =>
    have tail : ((xs.enumFrom (k + 1)).filter (fun ip => p ip.1)).map Prod.snd =
        ((List.range' (k + 1) xs.length).filter p).filterMap (fun i => (x :: xs)[i - k]?) := by
      rw [ih (k + 1)]
      apply List.filterMap_congr
      intro i hi
      have hk : k + 1 ≤ i := (List.mem_range'_1.mp (List.mem_of_mem_filter hi)).1
      obtain ⟨j, rfl⟩ := Nat.exists_eq_add_of_le hk
      have e1 : k + 1 + j - (k + 1) = j := by omega
      have e2 : k + 1 + j - k = j + 1 := by omega
      rw [e1, e2, List.getElem?_cons_succ]
    simp only [List.enumFrom_cons, List.length_cons, List.range'_succ, List.filter_cons]
    by_cases hp : p k
    · simp [hp, tail]
    · simp [hp, tail]

theorem filterWithIndex_eq {α : Type} (p : Nat → Bool) (xs : List α) :
    filterWithIndex (fun _ i => p i) xs =
      ((List.range xs.length).filter p).filterMap (fun i => xs[i]?) := by
  have h := filterWithIndex_enumFrom p xs 0
  simpa [filterWithIndex, List.enum, List.range_eq_range'] using h

theorem mem_strideIndices (n stride i : Nat) (hs : 0 < stride) :
    i ∈ strideIndices n stride ↔ i < n ∧ ∃ k, i = k * stride := by
  simp only [strideIndices, List.mem_filter, List.mem_map, List.mem_range, decide_eq_true_eq]
  constructor
  · rintro ⟨⟨k, _, rfl⟩, hlt⟩
    exact ⟨hlt, k, rfl⟩
  · rintro ⟨hlt, k, rfl⟩
    refine ⟨⟨k, ?_, rfl⟩, hlt⟩
    exact lt_of_le_of_lt (Nat.le_mul_of_pos_right k hs) hlt

theorem sorted_strideIndices (n stride : Nat) (hs : 0 < stride) :
    (strideIndices n stride).Sorted (· < ·) := by
  unfold strideIndices
  apply List.Pairwise.filter
  exact List.Pairwise.map _ (fun a b hab => Nat.mul_lt_mul_of_pos_right hab hs)
    (List.pairwise_lt_range n)

theorem filter_range_eq_strideIndices (n stride : Nat) (hs : 0 < stride) :
    (List.range n).filter (fun i => remIsZero i stride) = strideIndices n stride := by
  have s1 : ((List.range n).filter (fun i => remIsZero i stride)).Sorted (· < ·) :=
    List.Pairwise.filter _ (List.pairwise_lt_range n)
  have s2 := sorted_strideIndices n stride hs
  refine List.eq_of_perm_of_sorted ?_ s1.le_of_lt s2.le_of_lt
  refine (List.perm_ext_iff_of_nodup s1.nodup s2.nodup).mpr ?_
  intro i
  rw [mem_strideIndices n stride i hs]
  simp only [List.mem_filter, List.mem_range, remIsZero, Nat.ne_of_gt hs, if_false, beq_iff_eq]
  constructor
  · rintro ⟨hlt, hmod⟩
    exact ⟨hlt, i / stride, (Nat.div_mul_cancel (Nat.dvd_of_mod_eq_zero hmod)).symm⟩
  · rintro ⟨hlt, k, rfl⟩
    exact ⟨hlt, Nat.mul_mod_left k stride⟩

theorem map_some_filterMap_getElem {α : Type} (xs : List α) (is : List Nat)
    (h : ∀ i ∈ is, i < xs.length) :
    (is.filterMap (fun i => xs[i]?)).map some = is.map (fun i => xs[i]?) := by
  induction is with
  | nil => rfl
  | cons i is ih =>
    have hi : i < xs.length := h i (List.mem_cons_self i is)
    have his : ∀ j ∈ is, j < xs.length := fun j hj => h j (List.mem_cons_of_mem i hj)
    simp [List.filterMap_cons, List.getElem?_eq_getElem hi, ih his]

theorem samples_eq_strideIndices {α : Type} (path : List α) (h : 5 ≤ path.length) :
    samples path =
      (strideIndices path.length (path.length / 5)).filterMap (fun i => path[i]?) := by
  have hs : 0 < path.length / 5 := Nat.div_pos h (by decide)
  rw [← filter_range_eq_strideIndices path.length (path.length / 5) hs]
  exact filterWithIndex_eq (fun i => remIsZero i (path.length / 5)) path

/-- C5: on a path of `N ≥ 5` points the sampler returns, in path order, exactly
the points at the indices `0, stride, 2·stride, …` below `N`, with
`stride = ⌊N / 5⌋`; on a path of 12 points the stride is 2 and the indices are
0, 2, 4, 6, 8, 10. -/
theorem samples_at_stride :
    (∀ (α : Type) (path : List α), 5 ≤ path.length →
      (samples path).map some =
          (strideIndices path.length (path.length / 5)).map (fun i => path[i]?) ∧
        (strideIndices path.length (path.length / 5)).Sorted (· < ·) ∧
        ∀ i, i ∈ strideIndices path.length (path.length / 5) ↔
          i < path.length ∧ ∃ k, i = k * (path.length / 5)) ∧
    12 / 5 = 2 ∧ strideIndices 12 (12 / 5) = [0, 2, 4, 6, 8, 10] ∧
    (∀ (α : Type) (path : List α), path.length = 12 →
      (samples path).map some = [0, 2, 4, 6, 8, 10].map (fun i => path[i]?)) := by
  have general : ∀ (α : Type) (path : List α), 5 ≤ path.length →
      (samples path).map some =
        (strideIndices path.length (path.length / 5)).map (fun i => path[i]?) := by
    intro α path h
    have hs : 0 < path.length / 5 := Nat.div_pos h (by decide)
    rw [samples_eq_strideIndices path h]
    exact map_some_filterMap_getElem path _
      (fun i hi => ((mem_strideIndices _ _ i hs).mp hi).1)
  refine ⟨?_, by decide, by decide, ?_⟩
  · intro α path h
    have hs : 0 < path.length / 5 := Nat.div_pos h (by decide)
    exact ⟨general α path h, sorted_strideIndices _ _ hs, fun i => mem_strideIndices _ _ i hs⟩
  · intro α path h12
    have h := general α path (by omega)
    rw [h12] at h
    exact h

/-- Witness of C5: the six-point path 10, 11, …, 15, sampled at stride 1. -/
theorem samples_at_stride_witness :
    5 ≤ [10, 11, 12, 13, 14, 15].length ∧
      (samples [10, 11, 12, 13, 14, 15]).map some =
        (strideIndices [10, 11, 12, 13, 14, 15].length
          ([10, 11, 12, 13, 14, 15].length / 5)).map (fun i => [10, 11, 12, 13, 14, 15][i]?) :=
  ⟨by decide, (samples_at_stride.1 Nat [10, 11, 12, 13, 14, 15] (by decide)).1⟩

/-- C6, the code on short paths: a path of three points gets no sample at all,
and so does every path of fewer than five points; the stride is then 0, the
remainder by it is `NaN`, and the filter keeps nothing. -/
theorem short_path_has_no_sample :
    samples ["a", "b", "c"] = [] ∧
    ∀ (α : Type) (path : List α), path.length < 5 → samples path = [] := by
  refine ⟨by decide, ?_⟩
  intro α path h
  have hs : path.length / 5 = 0 := Nat.div_eq_of_lt h
  simp [samples, filterWithIndex, remIsZero, hs]

/-! ## Results, renderers and colours -/

theorem getElem?_map_append_length {α β : Type} (g : α → β) (pre : List α) (r : α)
    (rs : List α) : ((pre ++ r :: rs).map g)[pre.length]? = some (g r) := by
  induction pre with
  | nil => simp
  | cons a as iha => simpa using iha

theorem newRenderers_enumFrom (g : DirectionsRoute → RouteResult)
    (pre routes : List DirectionsRoute) :
    (routes.enumFrom pre.length).mapM (fun ir =>
        (((pre ++ routes).map g)[ir.1]?).map fun routeData =>
          ({ map := true, route := ir.2, strokeColor := strokeColorOf routeData.congestion } :
            DirectionsRenderer)) =
      some (routes.map fun r =>
        { map := true, route := r, strokeColor := strokeColorOf (g r).congestion }) := by
  induction routes generalizing pre with
  | nil => rfl
  | cons r rs ih =>
    have h := ih (pre ++ [r])
    simp only [List.length_append, List.length_singleton, List.append_assoc,
      List.singleton_append] at h
    have h0 : ((pre ++ r :: rs).map g)[pre.length]? = some (g r) :=
      getElem?_map_append_length g pre r rs
    rw [List.enumFrom_cons, List.mapM_cons, h, h0]
    rfl

theorem newRenderers_eq (g : DirectionsRoute → RouteResult) (routes : List DirectionsRoute) :
    newRenderers routes (routes.map g) =
      some (routes.map fun r =>
        { map := true, route := r, strokeColor := strokeColorOf (g r).congestion }) := by
  have h := newRenderers_enumFrom g [] routes
  simpa [newRenderers, List.enum] using h

theorem strokeColorOf_label (c : String) (h : c ∈ ["Low", "Medium", "High", "Unknown"]) :
    congestionColors.lookup c = some (strokeColorOf c) ∧ strokeColorOf c ≠ "#888" := by
  simp only [List.mem_cons, List.mem_singleton, List.not_mem_nil, or_false] at h
  rcases h with rfl | rfl | rfl | rfl <;> exact ⟨by decide, by decide⟩

theorem onDirections_some (resp : Responses) (pg : Page) (routes : List DirectionsRoute)
    (h : resp.directions = some routes) :
    onDirections resp pg =
      { state := { pg.state with
          routes := routes.map (processRoute resp.lookups)
          directionsRenderer := (List.range routes.length).map (· + pg.heap.length) }
        heap := pg.heap ++ routes.map fun r =>
          { map := true, route := r
            strokeColor := strokeColorOf (processRoute resp.lookups r).congestion }
        log := pg.log ++
          ((List.range routes.length).map (· + pg.heap.length)).map MapEvent.drawn } := by
  simp [onDirections, h, newRenderers_eq]

theorem handlePredict_some (resp : Responses) (pg : Page) (routes : List DirectionsRoute)
    (ho : pg.state.origin ≠ "") (hd : pg.state.destination ≠ "")
    (h : resp.directions = some routes) :
    (handlePredict resp pg).state.routes = routes.map (processRoute resp.lookups) ∧
      (handlePredict resp pg).state.directionsRenderer =
        (List.range routes.length).map
          (· + (pg.state.directionsRenderer.foldl setMapNull pg.heap).length) ∧
      (handlePredict resp pg).heap =
        pg.state.directionsRenderer.foldl setMapNull pg.heap ++ routes.map (fun r =>
          { map := true, route := r
            strokeColor := strokeColorOf (processRoute resp.lookups r).congestion }) ∧
      (handlePredict resp pg).log =
        pg.log ++ pg.state.directionsRenderer.map MapEvent.detached ++
          (handlePredict resp pg).state.directionsRenderer.map MapEvent.drawn ∧
      (handlePredict resp pg).state.origin = pg.state.origin ∧
      (handlePredict resp pg).state.destination = pg.state.destination := by
  have hg : ¬ (pg.state.origin = "" ∨ pg.state.destination = "") := by
    rintro (h1 | h1)
    · exact ho h1
    · exact hd h1
  simp only [handlePredict, if_neg hg, onDirections_some _ _ routes h, fetchIncidents]
  cases resp.incidents <;> simp

theorem handlePredict_none (resp : Responses) (pg : Page)
    (ho : pg.state.origin ≠ "") (hd : pg.state.destination ≠ "")
    (h : resp.directions = none) :
    (handlePredict resp pg).state.directionsRenderer = [] ∧
      (handlePredict resp pg).heap = pg.state.directionsRenderer.foldl setMapNull pg.heap ∧
      (handlePredict resp pg).log =
        pg.log ++ pg.state.directionsRenderer.map MapEvent.detached ∧
      (handlePredict resp pg).state.origin = pg.state.origin ∧
      (handlePredict resp pg).state.destination = pg.state.destination := by
  have hg : ¬ (pg.state.origin = "" ∨ pg.state.destination = "") := by
    rintro (h1 | h1)
    · exact ho h1
    · exact hd h1
  simp only [handlePredict, if_neg hg, onDirections, h, fetchIncidents]
  cases resp.incidents <;> simp

/-- C8: `handlePredict` stores one result for each route of the directions
result and draws one overlay for each, both in the order of the routes: the
result and the overlay at position `i` belong to the route at position `i`, and
the stroke colour of the overlay is the colour that `congestionColors` gives for
the label of that result (Low green, Medium yellow, High red, Unknown gray),
never the fallback `#888`.  Two routes with ratios 0.9 and 0.4 are drawn green
and red. -/
theorem overlays_follow_routes :
    (∀ (resp : Responses) (pg : Page) (routes : List DirectionsRoute),
      pg.state.origin ≠ "" → pg.state.destination ≠ "" → resp.directions = some routes →
      (handlePredict resp pg).state.routes.length = routes.length ∧
      (handlePredict resp pg).state.directionsRenderer.length = routes.length ∧
      ∀ (i : Nat) (r : DirectionsRoute), routes[i]? = some r →
        (handlePredict resp pg).state.routes[i]? = some (processRoute resp.lookups r) ∧
        ∃ (ref : Nat) (dr : DirectionsRenderer),
          (handlePredict resp pg).state.directionsRenderer[i]? = some ref ∧
          (handlePredict resp pg).heap[ref]? = some dr ∧ dr.route = r ∧ dr.map = true ∧
          congestionColors.lookup (processRoute resp.lookups r).congestion
            = some dr.strokeColor ∧
          dr.strokeColor ≠ "#888") ∧
    (congestionColors.lookup "Low" = some "green" ∧
      congestionColors.lookup "Medium" = some "yellow" ∧
      congestionColors.lookup "High" = some "red" ∧
      congestionColors.lookup "Unknown" = some "gray") ∧
    ((handlePredict
        ⟨some [⟨"one", "1 km", "1 min", [⟨1, 0⟩, ⟨1, 1⟩, ⟨1, 2⟩, ⟨1, 3⟩, ⟨1, 4⟩], ""⟩,
            ⟨"two", "2 km", "2 mins", [⟨2, 0⟩, ⟨2, 1⟩, ⟨2, 2⟩, ⟨2, 3⟩, ⟨2, 4⟩], ""⟩],
          ⟨fun p => if p.lat = 1 then some ⟨90, 100⟩ else some ⟨40, 100⟩, fun _ => none⟩, none⟩
        ⟨⟨"A", "B", [], [], []⟩, [], []⟩).state.routes.map (·.congestion) = ["Low", "High"] ∧
      (handlePredict
        ⟨some [⟨"one", "1 km", "1 min", [⟨1, 0⟩, ⟨1, 1⟩, ⟨1, 2⟩, ⟨1, 3⟩, ⟨1, 4⟩], ""⟩,
            ⟨"two", "2 km", "2 mins", [⟨2, 0⟩, ⟨2, 1⟩, ⟨2, 2⟩, ⟨2, 3⟩, ⟨2, 4⟩], ""⟩],
          ⟨fun p => if p.lat = 1 then some ⟨90, 100⟩ else some ⟨40, 100⟩, fun _ => none⟩, none⟩
        ⟨⟨"A", "B", [], [], []⟩, [], []⟩).heap.map (·.strokeColor) = ["green", "red"]) := by
  refine ⟨?_, ⟨by decide, by decide, by decide, by decide⟩, by decide!, by decide!⟩
  intro resp pg routes ho hd h
  obtain ⟨hr, hrefs, hheap, _, _, _⟩ := handlePredict_some resp pg routes ho hd h
  refine ⟨by rw [hr]; simp, by rw [hrefs]; simp, ?_⟩
  intro i r hi
  have hlt : i < routes.length := (List.getElem?_eq_some.mp hi).1
  refine ⟨by rw [hr]; simp [hi], ?_⟩
  refine ⟨i + (pg.state.directionsRenderer.foldl setMapNull pg.heap).length,
    { map := true, route := r
      strokeColor := strokeColorOf (processRoute resp.lookups r).congestion }, ?_, ?_, rfl, rfl, ?_⟩
  · rw [hrefs]
    simp [List.getElem?_range hlt]
  · rw [hheap, List.getElem?_append_right (Nat.le_add_left _ _)]
    simp [hi]
  · exact strokeColorOf_label _ (congestionOf_mem _ _)

/-- Witness of C8: one route of five points with the record (90, 100) everywhere,
predicted from an empty page. -/
theorem overlays_follow_routes_witness :
    (handlePredict
        ⟨some [⟨"one", "1 km", "1 min", [⟨1, 0⟩, ⟨1, 1⟩, ⟨1, 2⟩, ⟨1, 3⟩, ⟨1, 4⟩], ""⟩],
          ⟨fun _ => some ⟨90, 100⟩, fun _ => none⟩, none⟩
        ⟨⟨"A", "B", [], [], []⟩, [], []⟩).state.directionsRenderer.length = 1 :=
  (overlays_follow_routes.1
    ⟨some [⟨"one", "1 km", "1 min", [⟨1, 0⟩, ⟨1, 1⟩, ⟨1, 2⟩, ⟨1, 3⟩, ⟨1, 4⟩], ""⟩],
      ⟨fun _ => some ⟨90, 100⟩, fun _ => none⟩, none⟩
    ⟨⟨"A", "B", [], [], []⟩, [], []⟩ _ (by decide) (by decide) rfl).2.1

/-! ## Overlays across predictions -/

theorem length_setMapNull (heap : List DirectionsRenderer) (ref : Nat) :
    (setMapNull heap ref).length = heap.length := by
  unfold setMapNull
  split <;> simp

theorem length_foldl_setMapNull (refs : List Nat) (heap : List DirectionsRenderer) :
    (refs.foldl setMapNull heap).length = heap.length := by
  induction refs generalizing heap with
  | nil => rfl
  | cons ref refs ih => rw [List.foldl_cons, ih, length_setMapNull]

theorem attached_of_setMapNull (heap : List DirectionsRenderer) (ref i : Nat)
    (d : DirectionsRenderer) (h : (setMapNull heap ref)[i]? = some d) (hm : d.map = true) :
    i ≠ ref ∧ heap[i]? = some d := by
  unfold setMapNull at h
  split at h
  · next hnone =>
    refine ⟨?_, h⟩
    rintro rfl
    rw [hnone] at h
    cases h
  · next dr _ =>
    rw [List.getElem?_set] at h
    by_cases hri : ref = i
    · rw [if_pos hri] at h
      split at h
      · cases h
        cases hm
      · cases h
    · rw [if_neg hri] at h
      exact ⟨fun e => hri e.symm, h⟩

theorem attached_of_foldl_setMapNull (refs : List Nat) (heap : List DirectionsRenderer)
    (i : Nat) (d : DirectionsRenderer) (h : (refs.foldl setMapNull heap)[i]? = some d)
    (hm : d.map = true) : i ∉ refs ∧ heap[i]? = some d := by
  induction refs generalizing heap with
  | nil => exact ⟨List.not_mem_nil i, h⟩
  | cons ref refs ih =>
    rw [List.foldl_cons] at h
    obtain ⟨h1, h2⟩ := ih (setMapNull heap ref) h
    obtain ⟨h3, h4⟩ := attached_of_setMapNull heap ref i d h2 hm
    refine ⟨?_, h4⟩
    intro hmem
    rcases List.mem_cons.mp hmem with e | e
    · exact h3 e
    · exact h1 e

theorem mem_attached (heap : List DirectionsRenderer) (i : Nat) :
    i ∈ attached heap ↔ ∃ d, heap[i]? = some d ∧ d.map = true := by
  simp only [attached, List.mem_filter, List.mem_range, beq_iff_eq, Option.map_eq_some']
  constructor
  · rintro ⟨_, d, hd, hm⟩
    exact ⟨d, hd, hm⟩
  · rintro ⟨d, hd, hm⟩
    exact ⟨(List.getElem?_eq_some.mp hd).1, d, hd, hm⟩

theorem sorted_attached (heap : List DirectionsRenderer) : (attached heap).Sorted (· < ·) :=
  List.Pairwise.filter _ (List.pairwise_lt_range heap.length)

theorem attached_cleared (pg : Page) (hc : Consistent pg) :
    attached (pg.state.directionsRenderer.foldl setMapNull pg.heap) = [] := by
  rw [List.eq_nil_iff_forall_not_mem]
  intro i hi
  obtain ⟨d, hd, hm⟩ := (mem_attached _ i).mp hi
  obtain ⟨hnot, hheap⟩ := attached_of_foldl_setMapNull _ _ i d hd hm
  exact hnot (hc.2 i ((mem_attached _ i).mpr ⟨d, hheap, hm⟩))

theorem attached_append_new (cl : List DirectionsRenderer) (hcl : attached cl = [])
    (new : List DirectionsRenderer) (hnew : ∀ d ∈ new, d.map = true) :
    attached (cl ++ new) = (List.range new.length).map (· + cl.length) := by
  have s2 : ((List.range new.length).map (· + cl.length)).Sorted (· < ·) :=
    List.Pairwise.map _ (fun a b hab => Nat.add_lt_add_right hab _)
      (List.pairwise_lt_range new.length)
  have s1 := sorted_attached (cl ++ new)
  refine List.eq_of_perm_of_sorted ?_ s1.le_of_lt s2.le_of_lt
  refine (List.perm_ext_iff_of_nodup s1.nodup s2.nodup).mpr ?_
  intro i
  rw [mem_attached]
  simp only [List.mem_map, List.mem_range]
  constructor
  · rintro ⟨d, hd, hm⟩
    by_cases hlt : i < cl.length
    · rw [List.getElem?_append_left hlt] at hd
      have : i ∈ attached cl := (mem_attached cl i).mpr ⟨d, hd, hm⟩
      rw [hcl] at this
      cases this
    · have hle : cl.length ≤ i := Nat.le_of_not_lt hlt
      rw [List.getElem?_append_right hle] at hd
      exact ⟨i - cl.length, (List.getElem?_eq_some.mp hd).1, Nat.sub_add_cancel hle⟩
  · rintro ⟨k, hk, rfl⟩
    refine ⟨new[k], ?_, hnew _ (List.getElem_mem hk)⟩
    rw [List.getElem?_append_right (Nat.le_add_left _ _), Nat.add_sub_cancel]
    exact List.getElem?_eq_getElem hk

theorem handlePredict_step (resp : Responses) (pg : Page)
    (ho : pg.state.origin ≠ "") (hd : pg.state.destination ≠ "") (hc : Consistent pg) :
    (handlePredict resp pg).log =
        pg.log ++ pg.state.directionsRenderer.map MapEvent.detached ++
          (handlePredict resp pg).state.directionsRenderer.map MapEvent.drawn ∧
      attached (handlePredict resp pg).heap = (handlePredict resp pg).state.directionsRenderer ∧
      (handlePredict resp pg).state.directionsRenderer.length
        = (resp.directions.getD []).length ∧
      (∀ ref ∈ (handlePredict resp pg).state.directionsRenderer,
        pg.heap.length ≤ ref ∧ ref < (handlePredict resp pg).heap.length) ∧
      (handlePredict resp pg).state.origin = pg.state.origin ∧
      (handlePredict resp pg).state.destination = pg.state.destination := by
  have hcl := attached_cleared pg hc
  have hlen := length_foldl_setMapNull pg.state.directionsRenderer pg.heap
  cases h : resp.directions with
  | none =>
    obtain ⟨h1, h2, h3, h4, h5⟩ := handlePredict_none resp pg ho hd h
    refine ⟨?_, ?_, ?_, ?_, h4, h5⟩
    · rw [h3, h1]; simp
    · rw [h2, h1, hcl]
    · rw [h1]; rfl
    · rw [h1]; intro ref href; cases href
  | some routes =>
    obtain ⟨_, h1, h2, h3, h4, h5⟩ := handlePredict_some resp pg routes ho hd h
    refine ⟨h3, ?_, ?_, ?_, h4, h5⟩
    · rw [h2, h1, attached_append_new _ hcl]
      · simp
      · intro d hdm
        obtain ⟨r, _, rfl⟩ := List.mem_map.mp hdm
        rfl
    · rw [h1]; simp
    · rw [h1, h2]
      intro ref href
      obtain ⟨k, hk, rfl⟩ := List.mem_map.mp href
      rw [List.mem_range] at hk
      simp only [List.length_append, List.length_map, hlen]
      omega

theorem handlePredict_consistent (resp : Responses) (pg : Page)
    (ho : pg.state.origin ≠ "") (hd : pg.state.destination ≠ "") (hc : Consistent pg) :
    Consistent (handlePredict resp pg) := by
  obtain ⟨_, h2, _, h4, _, _⟩ := handlePredict_step resp pg ho hd hc
  refine ⟨fun ref href => (h4 ref href).2, ?_⟩
  intro i hi
  rw [h2] at hi
  exact hi

theorem runPredictions_consistent (resps : List Responses) (pg : Page)
    (ho : pg.state.origin ≠ "") (hd : pg.state.destination ≠ "") (hc : Consistent pg) :
    Consistent (runPredictions resps pg) ∧
      (runPredictions resps pg).state.origin = pg.state.origin ∧
      (runPredictions resps pg).state.destination = pg.state.destination := by
  induction resps generalizing pg with
  | nil => exact ⟨hc, rfl, rfl⟩
  | cons resp resps ih =>
    obtain ⟨_, _, _, _, h5, h6⟩ := handlePredict_step resp pg ho hd hc
    have hc1 := handlePredict_consistent resp pg ho hd hc
    obtain ⟨i1, i2, i3⟩ := ih (handlePredict resp pg) (by rw [h5]; exact ho)
      (by rw [h6]; exact hd) hc1
    exact ⟨i1, by rw [← h5]; exact i2, by rw [← h6]; exact i3⟩

/-- C9: on a page with non-empty origin and destination that keeps track of its
overlays, `handlePredict` first detaches every renderer of the previous
prediction and only then draws the new ones; afterwards the renderers attached
to the map are exactly the ones it created, one for each returned route, and no
renderer of the previous prediction is attached.  The same holds after any
number of earlier predictions made one after the other. -/
theorem predict_replaces_overlays (resp : Responses) (pg : Page)
    (ho : pg.state.origin ≠ "") (hd : pg.state.destination ≠ "") (hc : Consistent pg) :
    (handlePredict resp pg).log =
        pg.log ++ pg.state.directionsRenderer.map MapEvent.detached ++
          (handlePredict resp pg).state.directionsRenderer.map MapEvent.drawn ∧
      attached (handlePredict resp pg).heap = (handlePredict resp pg).state.directionsRenderer ∧
      (handlePredict resp pg).state.directionsRenderer.length
        = (resp.directions.getD []).length ∧
      (∀ ref ∈ (handlePredict resp pg).state.directionsRenderer, pg.heap.length ≤ ref) ∧
      (∀ ref ∈ pg.state.directionsRenderer, ref ∉ attached (handlePredict resp pg).heap) ∧
      Consistent (handlePredict resp pg) ∧
      ∀ earlier : List Responses,
        attached (handlePredict resp (runPredictions earlier pg)).heap =
            (handlePredict resp (runPredictions earlier pg)).state.directionsRenderer ∧
          (handlePredict resp (runPredictions earlier pg)).state.directionsRenderer.length
            = (resp.directions.getD []).length ∧
          ∀ ref ∈ (runPredictions earlier pg).state.directionsRenderer,
            ref ∉ attached (handlePredict resp (runPredictions earlier pg)).heap := by
  have single : ∀ q : Page, q.state.origin ≠ "" → q.state.destination ≠ "" → Consistent q →
      ∀ ref ∈ q.state.directionsRenderer, ref ∉ attached (handlePredict resp q).heap := by
    intro q hqo hqd hqc ref href hatt
    obtain ⟨_, h2, _, h4, _, _⟩ := handlePredict_step resp q hqo hqd hqc
    rw [h2] at hatt
    have h1 := (h4 ref hatt).1
    have h3 := hqc.1 ref href
    omega
  obtain ⟨h1, h2, h3, h4, _, _⟩ := handlePredict_step resp pg ho hd hc
  refine ⟨h1, h2, h3, fun ref href => (h4 ref href).1, single pg ho hd hc,
    handlePredict_consistent resp pg ho hd hc, ?_⟩
  intro earlier
  obtain ⟨e1, e2, e3⟩ := runPredictions_consistent earlier pg ho hd hc
  have eo : (runPredictions earlier pg).state.origin ≠ "" := by rw [e2]; exact ho
  have ed : (runPredictions earlier pg).state.destination ≠ "" := by rw [e3]; exact hd
  obtain ⟨_, g2, g3, _, _, _⟩ := handlePredict_step resp (runPredictions earlier pg) eo ed e1
  exact ⟨g2, g3, single _ eo ed e1⟩

/-- Witness of C9: a second prediction on a page that shows the overlay of a first
one. -/
theorem predict_replaces_overlays_witness :
    Consistent ⟨⟨"A", "B", [], [], [0]⟩,
        [⟨true, ⟨"one", "1 km", "1 min", [], ""⟩, "gray"⟩], [MapEvent.drawn 0]⟩ ∧
      attached (handlePredict
        ⟨some [⟨"two", "2 km", "2 mins", [], ""⟩, ⟨"three", "3 km", "3 mins", [], ""⟩],
          ⟨fun _ => none, fun _ => none⟩, none⟩
        ⟨⟨"A", "B", [], [], [0]⟩,
          [⟨true, ⟨"one", "1 km", "1 min", [], ""⟩, "gray"⟩], [MapEvent.drawn 0]⟩).heap =
        (handlePredict
        ⟨some [⟨"two", "2 km", "2 mins", [], ""⟩, ⟨"three", "3 km", "3 mins", [], ""⟩],
          ⟨fun _ => none, fun _ => none⟩, none⟩
        ⟨⟨"A", "B", [], [], [0]⟩,
          [⟨true, ⟨"one", "1 km", "1 min", [], ""⟩, "gray"⟩],
          [MapEvent.drawn 0]⟩).state.directionsRenderer :=
  ⟨by decide,
    (predict_replaces_overlays
      ⟨some [⟨"two", "2 km", "2 mins", [], ""⟩, ⟨"three", "3 km", "3 mins", [], ""⟩],
        ⟨fun _ => none, fun _ => none⟩, none⟩
      ⟨⟨"A", "B", [], [], [0]⟩,
        [⟨true, ⟨"one", "1 km", "1 min", [], ""⟩, "gray"⟩], [MapEvent.drawn 0]⟩
      (by decide) (by decide) (by decide)).2.1⟩

/-! ## The handler of `POST /predict-route` -/

/-- C10, the code at the failing input: the body `{"from": {}, "to": {}}` carries
no latitude and no longitude, yet it passes the test `!from || !to`; the handler
asks for the weather at an `undefined` latitude and longitude and answers with
status 200 and the success envelope, without an `error` field. -/
theorem predictRoute_accepts_empty_coordinates (env : Backend) :
    (predictRoute env (.object [("from", .obj []), ("to", .obj [])])).status = 200 ∧
      (predictRoute env (.object [("from", .obj []), ("to", .obj [])])).body =
        .obj [("message", .str "Prediction request received, weather fetched!"),
          ("receivedOrigin", .obj []), ("receivedDestination", .obj []),
          ("weatherData", (getWeatherData env none none).getD .null)] ∧
      (predictRoute env (.object [("from", .obj []), ("to", .obj [])])).body.hasField "error"
        = false ∧
      (predictRoute env (.object [("from", .obj []), ("to", .obj [])])).body.hasField "message"
        = true := by
  refine ⟨rfl, rfl, rfl, rfl⟩

/-- The only test of the handler: a body is answered with status 400 and an
`error` field exactly when its `from` or its `to` is missing or falsy, and with
status 200 and the success envelope otherwise. -/
theorem predictRoute_rejects_missing (env : Backend) (body : Body) :
    (isFalsy (body.prop "from") = true ∨ isFalsy (body.prop "to") = true →
      (predictRoute env body).status = 400 ∧
        (predictRoute env body).body.hasField "error" = true ∧
        (predictRoute env body).body.hasField "message" = false) ∧
    (isFalsy (body.prop "from") = false ∧ isFalsy (body.prop "to") = false →
      (predictRoute env body).status = 200 ∧
        (predictRoute env body).body.hasField "error" = false ∧
        (predictRoute env body).body.hasField "message" = true) := by
  constructor
  · intro h
    have hg : (isFalsy (body.prop "from") || isFalsy (body.prop "to")) = true := by
      rcases h with h | h <;> simp [h]
    simp only [predictRoute, hg, if_true]
    exact ⟨trivial, by decide, by decide⟩
  · rintro ⟨h1, h2⟩
    have hg : ¬ ((isFalsy (body.prop "from") || isFalsy (body.prop "to")) = true) := by
      simp [h1, h2]
    simp only [predictRoute, if_neg hg]
    cases hf : body.prop "from" with
    | none => simp [hf, isFalsy] at h1
    | some f =>
      cases ht : body.prop "to" with
      | none => simp [ht, isFalsy] at h2
      | some t =>
        refine ⟨trivial, ?_, ?_⟩
        · simp only [JSON.hasField, field, List.cons_append, List.nil_append, List.lookup]
          rfl
        · simp only [JSON.hasField, field, List.cons_append, List.nil_append, List.lookup]
          rfl

/-! ## The number of samples -/

theorem strideIndices_eq_map (n stride : Nat) (hs : 0 < stride) :
    strideIndices n stride = (List.range ((n + stride - 1) / stride)).map (· * stride) := by
  have s1 := sorted_strideIndices n stride hs
  have s2 : ((List.range ((n + stride - 1) / stride)).map (· * stride)).Sorted (· < ·) :=
    List.Pairwise.map _ (fun a b hab => Nat.mul_lt_mul_of_pos_right hab hs)
      (List.pairwise_lt_range _)
  refine List.eq_of_perm_of_sorted ?_ s1.le_of_lt s2.le_of_lt
  refine (List.perm_ext_iff_of_nodup s1.nodup s2.nodup).mpr ?_
  intro i
  rw [mem_strideIndices n stride i hs]
  simp only [List.mem_map, List.mem_range]
  have key : ∀ k : Nat, k < (n + stride - 1) / stride ↔ k * stride < n := by
    intro k
    rw [← Nat.succ_le_iff, Nat.le_div_iff_mul_le hs, Nat.succ_mul]
    omega
  constructor
  · rintro ⟨hlt, k, rfl⟩
    exact ⟨k, (key k).mpr hlt, rfl⟩
  · rintro ⟨k, hk, rfl⟩
    exact ⟨(key k).mp hk, k, rfl⟩

theorem length_samples {α : Type} (path : List α) (h : 5 ≤ path.length) :
    (samples path).length = (path.length + path.length / 5 - 1) / (path.length / 5) := by
  have hs : 0 < path.length / 5 := Nat.div_pos h (by decide)
  have hmap : (samples path).map some =
      (strideIndices path.length (path.length / 5)).map (fun i => path[i]?) := by
    rw [samples_eq_strideIndices path h]
    exact map_some_filterMap_getElem path _
      (fun i hi => ((mem_strideIndices _ _ i hs).mp hi).1)
  have hlen := congrArg List.length hmap
  rw [List.length_map, List.length_map, strideIndices_eq_map _ _ hs, List.length_map,
    List.length_range] at hlen
  exact hlen

theorem ceil_div_eq (r s : Nat) (hs : 0 < s) :
    ⌈((r : ℚ) / (s : ℚ))⌉₊ = (r + s - 1) / s := by
  have hsq : (0 : ℚ) < (s : ℚ) := by exact_mod_cast hs
  have h1 : r + s - 1 < s * ((r + s - 1) / s + 1) := Nat.lt_mul_div_succ _ hs
  have h2 : s * ((r + s - 1) / s) ≤ r + s - 1 := Nat.mul_div_le _ _
  apply le_antisymm
  · rw [Nat.ceil_le, div_le_iff₀ hsq]
    have h3 : r ≤ (r + s - 1) / s * s := by
      rw [Nat.mul_comm]
      rw [Nat.mul_succ] at h1
      omega
    exact_mod_cast h3
  · by_cases hq : (r + s - 1) / s = 0
    · rw [hq]
      exact Nat.zero_le _
    · obtain ⟨q, hq1⟩ := Nat.exists_eq_succ_of_ne_zero hq
      rw [hq1, Nat.succ_le_iff, Nat.lt_ceil, lt_div_iff₀ hsq]
      have h3 : q * s < r := by
        rw [hq1, Nat.mul_succ, Nat.mul_comm] at h2
        omega
      exact_mod_cast h3

theorem samples_head {α : Type} (path : List α) (h : 5 ≤ path.length) :
    (samples path).head? = path.head? := by
  have hs : path.length / 5 ≠ 0 := Nat.ne_of_gt (Nat.div_pos h (by decide))
  cases path with
  | nil => simp at h
  | cons x xs =>
    simp only [List.length_cons] at hs
    simp only [samples, filterWithIndex, List.enum, List.enumFrom_cons, List.filter_cons]
    simp [remIsZero, hs]

/-- C11: on a path of `N ≥ 5` points the sampler selects
`5 + ⌈(N mod 5) / ⌊N / 5⌋⌉` points, at least 5 and at most 9 (9 on a path of 9
points); the first selected point is the first point of the path; and the count
is exactly 5 if and only if `N` is a multiple of 5. -/
theorem sample_count (α : Type) (path : List α) (h : 5 ≤ path.length) :
    (samples path).length =
        5 + ⌈((path.length % 5 : ℕ) : ℚ) / ((path.length / 5 : ℕ) : ℚ)⌉₊ ∧
      (samples path).length =
        5 + (path.length % 5 + path.length / 5 - 1) / (path.length / 5) ∧
      5 ≤ (samples path).length ∧ (samples path).length ≤ 9 ∧
      (path.length = 9 → (samples path).length = 9) ∧
      (samples path).head? = path.head? ∧ path.head? ≠ none ∧
      ((samples path).length = 5 ↔ path.length % 5 = 0) := by
  have hs : 0 < path.length / 5 := Nat.div_pos h (by decide)
  have hr : path.length % 5 < 5 := Nat.mod_lt _ (by decide)
  have hsplit : path.length + path.length / 5 - 1 =
      path.length / 5 * 5 + (path.length % 5 + path.length / 5 - 1) := by
    have := Nat.div_add_mod path.length 5
    omega
  have hcount : (samples path).length =
      5 + (path.length % 5 + path.length / 5 - 1) / (path.length / 5) := by
    rw [length_samples path h, hsplit, Nat.mul_add_div hs, Nat.add_comm]
  have hq : (path.length % 5 + path.length / 5 - 1) / (path.length / 5) < 5 := by
    rw [Nat.div_lt_iff_lt_mul hs]
    omega
  have hzero : (path.length % 5 + path.length / 5 - 1) / (path.length / 5) = 0 ↔
      path.length % 5 = 0 := by
    rw [Nat.div_eq_zero_iff hs]
    omega
  have h9 : path.length = 9 → (samples path).length = 9 := by
    intro e
    rw [hcount, e]
  have hne : path.head? ≠ none := by
    cases path with
    | nil => simp at h
    | cons x xs => simp
  rw [ceil_div_eq _ _ hs]
  generalize (path.length % 5 + path.length / 5 - 1) / (path.length / 5) = q
    at hcount hq hzero
  refine ⟨hcount, hcount, by omega, by omega, h9, samples_head path h, hne, ?_⟩
  rw [hcount]
  constructor
  · intro h5
    exact hzero.mp (by omega)
  · intro h0
    rw [hzero.mpr h0]

/-- Witness of C11: the path of nine points 10, 11, …, 18, of which all nine are
selected. -/
theorem sample_count_witness :
    5 ≤ [10, 11, 12, 13, 14, 15, 16, 17, 18].length ∧
      (samples [10, 11, 12, 13, 14, 15, 16, 17, 18]).length = 9 :=
  ⟨by decide,
    (sample_count Nat [10, 11, 12, 13, 14, 15, 16, 17, 18] (by decide)).2.2.2.2.1 rfl⟩

end Traffic
